import Mathlib

/-!
Verification of the FDD validator (cyberfabric/FDD).

The Python sources under `skills/fdd/scripts/fdd/` are shallowly embedded
below.  Pure text-processing functions become Lean functions over `String`
and `List Char`; the dict-based accumulators become association lists that
preserve insertion order, mirroring Python dict semantics.

The repository module `constants.py` (the compiled regular-expression
objects) is not part of the source snapshot: its recognizers are modelled
from the spec where a concrete format is given (section headings,
checkbox ID lines, placeholder vocabulary), and abstracted as function
parameters where the spec gives no concrete pattern (the typed-identifier
patterns used by the traceability engine).  Every such definition carries
a doc comment saying so.  Filesystem access (loading sibling documents,
walking the source tree) is the out-of-scope collaborator per the spec;
the embeddings receive the loaded text / file contents as arguments.
-/

/-- Python whitespace characters, as used by `str.strip` and `\s`. -/
def isPyWs (c : Char) : Bool :=
  c = ' ' ∨ c = '\t' ∨ c = '\n' ∨ c = '\r' ∨ c = '\x0b' ∨ c = '\x0c'

/-- Embedding of Python `str.strip()`. -/
def pyStrip (s : String) : String :=
  String.mk (((s.data.dropWhile isPyWs).reverse.dropWhile isPyWs).reverse)

/-- Drop `p` from the front of `cs` when it is literally there. -/
def dropPrefixCs : List Char → List Char → Option (List Char)
  | [], cs => some cs
  | _ :: _, [] => none
  | p :: ps, c :: cs => if c = p then dropPrefixCs ps cs else none

/-- Embedding of Python substring containment (`needle in haystack`). -/
def containsSub : List Char → List Char → Bool
  | _, [] => false
  | needle, c :: rest =>
    match dropPrefixCs needle (c :: rest) with
    | some _ => true
    | none => containsSub needle rest

/-- String-level substring containment; the empty needle is contained everywhere. -/
def strContains (hay needle : String) : Bool :=
  needle.data.isEmpty || containsSub needle.data hay.data

/-- The part of `cs` after the first occurrence of `pat`
    (Python `text.split(pat, 1)[1]`, used when containment is known). -/
def afterFirst (pat : List Char) : List Char → List Char
  | [] => []
  | c :: rest =>
    match dropPrefixCs pat (c :: rest) with
    | some r => r
    | none => afterFirst pat rest

/-- Helper for `splitLinesPy`: emit a line at each newline; at the end of the
    text a pending non-empty line is emitted and a pending empty one is not. -/
def splitLinesGo : List Char → List Char → List String
  | acc, [] => if acc.isEmpty then [] else [String.mk acc.reverse]
  | acc, c :: rest =>
    if c = '\n' then String.mk acc.reverse :: splitLinesGo [] rest
    else splitLinesGo (c :: acc) rest

/-- Embedding of Python `str.splitlines()` restricted to LF-separated text:
    lines end at each newline, and a trailing newline adds no empty line. -/
def splitLinesPy (s : String) : List String := splitLinesGo [] s.data

/-- Pair each line with its number, counting from `n`. -/
def numberLines (n : Nat) : List String → List (Nat × String)
  | [] => []
  | l :: ls => (n, l) :: numberLines (n + 1) ls

/-- Embedding of `"\n".join(lines)`. -/
def joinLines : List String → String
  | [] => ""
  | [l] => l
  | l :: ls => l ++ "\n" ++ joinLines ls

/-- Lexicographic comparison of character lists by code point. -/
def leCs : List Char → List Char → Bool
  | [], _ => true
  | _ :: _, [] => false
  | c :: cs, d :: ds => if c = d then leCs cs ds else decide (c < d)

/-- Lexicographic order on strings, mirroring Python string comparison. -/
def leStr (a b : String) : Bool := leCs a.data b.data

/-- Insert into a list sorted by `leStr`. -/
def insertSorted (x : String) : List String → List String
  | [] => [x]
  | y :: ys => if leStr x y then x :: y :: ys else y :: insertSorted x ys

/-- Embedding of Python `sorted` on a list of strings. -/
def sortStr (l : List String) : List String := l.foldr insertSorted []

/-- Association-list lookup: the embedding of Python dict lookup. -/
def lookupA {κ α : Type} [DecidableEq κ] (k : κ) : List (κ × α) → Option α
  | [] => none
  | (k2, v) :: rest => if k2 = k then some v else lookupA k rest

/-- Python set union, on duplicate-free lists standing for sets. -/
def setUnion (a b : List String) : List String := (a ++ b).dedup

theorem mem_insertSorted (a x : String) (l : List String) :
    a ∈ insertSorted x l ↔ a = x ∨ a ∈ l := by
  induction l with
  | nil => simp [insertSorted]
  | cons y ys ih =>
    simp only [insertSorted]
    split
    · simp
    · simp only [List.mem_cons, ih]
      tauto

theorem mem_sortStr (a : String) (l : List String) : a ∈ sortStr l ↔ a ∈ l := by
  induction l with
  | nil => simp [sortStr]
  | cons x xs ih =>
    simp only [sortStr, List.foldr] at *
    rw [mem_insertSorted, ih]
    simp

theorem mem_setUnion (a : String) (l m : List String) :
    a ∈ setUnion l m ↔ a ∈ l ∨ a ∈ m := by
  simp [setUnion]

theorem lookupA_append {κ α : Type} [DecidableEq κ] (k : κ) (m1 m2 : List (κ × α)) :
    lookupA k (m1 ++ m2) =
      match lookupA k m1 with
      | some v => some v
      | none => lookupA k m2 := by
  induction m1 with
  | nil => simp [lookupA]
  | cons p rest ih =>
    obtain ⟨k2, v⟩ := p
    by_cases h : k2 = k <;> simp [lookupA, h, ih]

/-! ## Scoped-instruction tracker (`fdl.py`, `extract_fdl_instructions`) -/

/-- Character class `[a-z0-9-]` used by the identifier patterns in `fdl.py`. -/
def isIdChar (c : Char) : Bool := (decide ('a' ≤ c) && decide (c ≤ 'z')) || c.isDigit || c = '-'

/-- Modelled from the spec: `FDL_SCOPE_ID_RE` lives in the missing `constants.py`.
    Per spec section 6 a scope declaration is a checkbox-prefixed ID line
    `- [ ] **ID**: ...` (the source comment in `fdl.py` shows the same shape),
    so the gate accepts a `-`/`*` bullet, a checkbox, then the literal ID label. -/
def isScopeIdLine (line : String) : Bool :=
  match line.data.dropWhile isPyWs with
  | b :: rest =>
    (b = '-' || b = '*') &&
    (let r1 := rest.dropWhile isPyWs
     match r1 with
     | '[' :: c :: ']' :: r2 =>
       (c = ' ' || c = 'x' || c = 'X') &&
       (dropPrefixCs "**ID**:".data (r2.dropWhile isPyWs)).isSome
     | _ => false)
  | [] => false

/-- The inline search `` re.search(r"`(fdd-[a-z0-9-]+)`", line) `` from `fdl.py`:
    the leftmost backtick-delimited token of the form `fdd-` followed by a
    non-empty run of `[a-z0-9-]` characters. -/
def scopeTokenScan : List Char → Option String
  | [] => none
  | c :: rest =>
    if c = '`' then
      match dropPrefixCs "fdd-".data rest with
      | some r =>
        let run := r.takeWhile isIdChar
        if run.isEmpty then scopeTokenScan rest
        else
          match r.drop run.length with
          | '`' :: _ => some ("fdd-" ++ String.mk run)
          | _ => scopeTokenScan rest
      | none => scopeTokenScan rest
    else scopeTokenScan rest

def scopeTokenOf (line : String) : Option String := scopeTokenScan line.data

/-- Modelled from the spec: `FDL_STEP_LINE_RE` lives in the missing `constants.py`.
    Per spec section 6 a step line is a numbered list item with a checkbox,
    i.e. `\s*\d+\.\s*\[[ xX]\]` at the start of the line. -/
def isStepLine (line : String) : Bool :=
  let cs := line.data.dropWhile isPyWs
  let ds := cs.takeWhile Char.isDigit
  if ds.isEmpty then false
  else
    match cs.drop ds.length with
    | '.' :: rest =>
      (match rest.dropWhile isPyWs with
       | '[' :: c :: ']' :: _ => c = ' ' || c = 'x' || c = 'X'
       | _ => false)
    | _ => false

/-- The inline check `` re.match(r"^\s*\d+\.\s*\[x\]", line, re.I) `` from `fdl.py`. -/
def isCheckedStep (line : String) : Bool :=
  let cs := line.data.dropWhile isPyWs
  let ds := cs.takeWhile Char.isDigit
  if ds.isEmpty then false
  else
    match cs.drop ds.length with
    | '.' :: rest =>
      (match rest.dropWhile isPyWs with
       | '[' :: c :: ']' :: _ => c = 'x' || c = 'X'
       | _ => false)
    | _ => false

/-- The inline search `` re.search(r"`(inst-[a-z0-9-]+)`\s*$", line.strip()) `` from
    `fdl.py`, evaluated on the already-stripped line: the line must end in a
    backtick-quoted token `inst-…` over `[a-z0-9-]`. -/
def instTokenOf (s : String) : Option String :=
  match s.data.reverse with
  | '`' :: rest =>
    let run := rest.takeWhile isIdChar
    (match rest.drop run.length with
     | '`' :: _ =>
       let tok := run.reverse
       match dropPrefixCs "inst-".data tok with
       | some tail => if tail.isEmpty then none else some (String.mk tok)
       | none => none
     | _ => none)
  | _ => none

/-- A line's effect as a scope declaration: the scope token extracted when the
    checkbox ID gate matches (`fdl.py` lines 32-37). -/
def scopeDeclOf (line : String) : Option String :=
  if isScopeIdLine line then scopeTokenOf line else none

/-- A line's effect as a completed step: the trailing instruction token when the
    step gates match (`fdl.py` lines 40-47). -/
def stepInstOf (line : String) : Option String :=
  if isStepLine line && isCheckedStep line then instTokenOf (pyStrip line) else none

/-- Per-scope record of `extract_fdl_instructions`. -/
structure SData where
  instructions : List String
  completed : List String
deriving DecidableEq, Repr

abbrev FdlMap := List (String × SData)

def hasKeyS (k : String) (m : FdlMap) : Bool := (lookupA k m).isSome

/-- `if current_scope_id not in result: result[current_scope_id] = {...}` -/
def createKey (k : String) (m : FdlMap) : FdlMap :=
  if hasKeyS k m then m else m ++ [(k, ⟨[], []⟩)]

/-- Appending an instruction id to both lists of an existing scope entry. -/
def appendInst (k i : String) : FdlMap → FdlMap
  | [] => []
  | (k2, v) :: rest =>
    if k2 = k then (k2, ⟨v.instructions ++ [i], v.completed ++ [i]⟩) :: rest
    else (k2, v) :: appendInst k i rest

/-- One loop iteration of `extract_fdl_instructions`: the scope-declaration
    check runs first and the step check uses the updated current scope. -/
def extractStep (m : FdlMap) (cur : Option String) (line : String) : FdlMap × Option String :=
  let p :=
    match scopeDeclOf line with
    | some s => (createKey s m, some s)
    | none => (m, cur)
  match p.2 with
  | some s =>
    (match stepInstOf line with
     | some i => (appendInst s i p.1, p.2)
     | none => p)
  | none => p

def extractGo (m : FdlMap) (cur : Option String) : List String → FdlMap
  | [] => m
  | l :: ls =>
    let p := extractStep m cur l
    extractGo p.1 p.2 ls

/-- Embedding of `extract_fdl_instructions` (`fdl.py` lines 14-49). -/
def extract_fdl_instructions (text : String) : FdlMap :=
  extractGo [] none (splitLinesPy text)

/-- Declarative reading of the extractor used by the round-trip claim: walking
    the lines with the current scope being the most recent declaration, collect
    the checked-step instruction tokens that fall under scope `s`, in order. -/
def collectFor (s : String) : Option String → List String → List String
  | _, [] => []
  | cur, l :: ls =>
    let cur2 :=
      match scopeDeclOf l with
      | some t => some t
      | none => cur
    (if cur2 = some s then (stepInstOf l).toList else []) ++ collectFor s cur2 ls

/-- Whether some line of `ls` declares scope `s`. -/
def declaresScope (s : String) (ls : List String) : Bool :=
  ls.any (fun l => scopeDeclOf l == some s)

theorem lookupA_createKey (k k2 : String) (m : FdlMap) :
    lookupA k (createKey k2 m) =
      if k2 = k then some ((lookupA k m).getD ⟨[], []⟩) else lookupA k m := by
  unfold createKey hasKeyS
  cases hv : lookupA k2 m with
  | some v =>
    simp only [hv, Option.isSome_some, if_true]
    by_cases he : k2 = k
    · subst he
      simp [hv]
    · simp [he]
  | none =>
    simp only [hv, Option.isSome_none, Bool.false_eq_true, if_false]
    by_cases he : k2 = k
    · subst he
      rw [lookupA_append, hv]
      simp [lookupA]
    · rw [lookupA_append]
      cases hv2 : lookupA k m with
      | some w => simp [he]
      | none => simp [lookupA, he]

theorem lookupA_appendInst (k k2 i : String) (m : FdlMap) :
    lookupA k (appendInst k2 i m) =
      if k2 = k then
        (lookupA k m).map (fun v => ⟨v.instructions ++ [i], v.completed ++ [i]⟩)
      else lookupA k m := by
  induction m with
  | nil => simp [appendInst, lookupA]
  | cons p rest ih =>
    obtain ⟨k3, v⟩ := p
    by_cases h3 : k3 = k2
    · subst h3
      by_cases hk : k3 = k
      · subst hk
        simp [appendInst, lookupA]
      · simp [appendInst, lookupA, hk]
    · by_cases hk : k3 = k
      · subst hk
        simp [appendInst, lookupA, h3, Ne.symm h3]
      · simp [appendInst, lookupA, h3, hk, ih]

theorem extractGo_cons (m : FdlMap) (cur : Option String) (l : String) (ls : List String) :
    extractGo m cur (l :: ls) = extractGo (extractStep m cur l).1 (extractStep m cur l).2 ls := rfl

theorem declaresScope_cons (s l : String) (ls : List String) :
    declaresScope s (l :: ls) = ((scopeDeclOf l == some s) || declaresScope s ls) := by
  simp [declaresScope]

theorem collectFor_cons_decl {l t : String} (s : String) (cur : Option String) (ls : List String)
    (hd : scopeDeclOf l = some t) :
    collectFor s cur (l :: ls) =
      (if t = s then (stepInstOf l).toList else []) ++ collectFor s (some t) ls := by
  simp only [collectFor, hd]
  by_cases ht : t = s <;> simp [ht]

theorem collectFor_cons_nodecl {l : String} (s : String) (cur : Option String) (ls : List String)
    (hd : scopeDeclOf l = none) :
    collectFor s cur (l :: ls) =
      (if cur = some s then (stepInstOf l).toList else []) ++ collectFor s cur ls := by
  simp only [collectFor, hd]

theorem extractGo_char (s : String) (ls : List String) :
    ∀ (m : FdlMap) (cur : Option String), (cur = some s → hasKeyS s m = true) →
    lookupA s (extractGo m cur ls) =
      match lookupA s m with
      | some v =>
        some ⟨v.instructions ++ collectFor s cur ls, v.completed ++ collectFor s cur ls⟩
      | none =>
        if declaresScope s ls then
          some ⟨collectFor s cur ls, collectFor s cur ls⟩
        else none := by
  induction ls with
  | nil =>
    intro m cur _
    cases hv : lookupA s m <;> simp [extractGo, collectFor, declaresScope, hv]
  | cons l ls ih =>
    intro m cur hcur
    cases hd : scopeDeclOf l with
    | some t =>
      cases hi : stepInstOf l with
      | none =>
        have hstep : extractStep m cur l = (createKey t m, some t) := by
          simp [extractStep, hd, hi]
        rw [extractGo_cons]
        simp only [hstep]
        rw [ih (createKey t m) (some t)
          (by intro h; injection h with h2; simp [h2, hasKeyS, lookupA_createKey])]
        rw [collectFor_cons_decl s cur ls hd, declaresScope_cons, lookupA_createKey]
        by_cases ht : t = s
        · cases hv : lookupA s m with
          | some v => simp [hv, ht, hd, hi]
          | none => simp [hv, ht, hd, hi]
        · cases hv : lookupA s m with
          | some v => simp [hv, ht, hd, hi]
          | none => simp [hv, ht, hd, hi]
      | some i =>
        have hstep : extractStep m cur l = (appendInst t i (createKey t m), some t) := by
          simp [extractStep, hd, hi]
        rw [extractGo_cons]
        simp only [hstep]
        rw [ih (appendInst t i (createKey t m)) (some t)
          (by intro h; injection h with h2
              simp [h2, hasKeyS, lookupA_appendInst, lookupA_createKey])]
        rw [collectFor_cons_decl s cur ls hd, declaresScope_cons, lookupA_appendInst,
          lookupA_createKey]
        by_cases ht : t = s
        · cases hv : lookupA s m with
          | some v => simp [hv, ht, hd, hi]
          | none => simp [hv, ht, hd, hi]
        · cases hv : lookupA s m with
          | some v => simp [hv, ht, hd, hi]
          | none => simp [hv, ht, hd, hi]
    | none =>
      cases hc : cur with
      | none =>
        have hstep : extractStep m none l = (m, none) := by
          simp [extractStep, hd]
        rw [extractGo_cons]
        simp only [hstep]
        rw [ih m none (by intro h; cases h)]
        rw [collectFor_cons_nodecl s none ls hd]
        cases hv : lookupA s m with
        | some v => simp [hv, declaresScope_cons, hd]
        | none => simp [hv, declaresScope_cons, hd]
      | some t =>
        cases hi : stepInstOf l with
        | none =>
          have hstep : extractStep m (some t) l = (m, some t) := by
            simp [extractStep, hd, hi]
          rw [extractGo_cons]
          simp only [hstep]
          rw [ih m (some t) (by intro h; exact hcur (hc.trans h))]
          rw [collectFor_cons_nodecl s (some t) ls hd]
          cases hv : lookupA s m with
          | some v => simp [hv, declaresScope_cons, hd, hi]
          | none => simp [hv, declaresScope_cons, hd, hi]
        | some i =>
          have hstep : extractStep m (some t) l = (appendInst t i m, some t) := by
            simp [extractStep, hd, hi]
          by_cases ht : t = s
          · subst ht
            obtain ⟨v, hv⟩ := Option.isSome_iff_exists.mp
              (by simpa [hasKeyS] using hcur hc)
            have hkey2 : lookupA t (appendInst t i m) =
                some ⟨v.instructions ++ [i], v.completed ++ [i]⟩ := by
              rw [lookupA_appendInst]
              simp [hv]
            rw [extractGo_cons]
            simp only [hstep]
            rw [ih (appendInst t i m) (some t) (by intro _; simp [hasKeyS, hkey2])]
            rw [collectFor_cons_nodecl _ _ _ hd]
            simp [hkey2, hv, hi]
          · have hkey2 : lookupA s (appendInst t i m) = lookupA s m := by
              rw [lookupA_appendInst]
              simp [ht]
            rw [extractGo_cons]
            simp only [hstep]
            rw [ih (appendInst t i m) (some t)
              (by intro h; injection h with h2; exact absurd h2 ht)]
            rw [collectFor_cons_nodecl s (some t) ls hd, hkey2]
            cases hv : lookupA s m with
            | some v => simp [hv, declaresScope_cons, hd, ht]
            | none => simp [hv, declaresScope_cons, hd, ht]

theorem instTokenOf_ne_empty {s i : String} (h : instTokenOf s = some i) : i ≠ "" := by
  unfold instTokenOf at h
  split at h
  case _ rest heq =>
    dsimp only at h
    split at h
    case _ tl hr2 =>
      cases hdrop : dropPrefixCs "inst-".data (rest.takeWhile isIdChar).reverse with
      | none => rw [hdrop] at h; cases h
      | some tail =>
        rw [hdrop] at h
        dsimp only at h
        by_cases hemp : tail.isEmpty
        · rw [if_pos hemp] at h
          cases h
        · rw [if_neg hemp] at h
          injection h with h2
          subst h2
          intro he
          have hnil : (rest.takeWhile isIdChar).reverse = [] := by
            have := congrArg String.data he
            simpa using this
          rw [hnil, show "inst-".data = 'i' :: "nst-".data from rfl] at hdrop
          simp [dropPrefixCs] at hdrop
    case _ => cases h
  case _ => cases h

theorem stepInstOf_ne_empty {l i : String} (h : stepInstOf l = some i) : i ≠ "" := by
  unfold stepInstOf at h
  split at h
  · exact instTokenOf_ne_empty h
  · cases h

/-- The invariant the extractor maintains on its accumulator: the two per-scope
    lists coincide and never hold an empty (falsy) string. -/
def GoodMap (m : FdlMap) : Prop :=
  ∀ e ∈ m, e.2.completed = e.2.instructions ∧ ∀ i ∈ e.2.completed, i ≠ ""

theorem goodMap_createKey {m : FdlMap} (k : String) (hm : GoodMap m) :
    GoodMap (createKey k m) := by
  unfold createKey
  split
  · exact hm
  · intro e he
    rcases List.mem_append.mp he with h1 | h2
    · exact hm e h1
    · simp only [List.mem_singleton] at h2
      subst h2
      exact ⟨rfl, by intro i hi; cases hi⟩

theorem goodMap_appendInst {m : FdlMap} (k i : String) (hi : i ≠ "") (hm : GoodMap m) :
    GoodMap (appendInst k i m) := by
  induction m with
  | nil => intro e he; cases he
  | cons p rest ih =>
    obtain ⟨k2, v⟩ := p
    have hhead := hm (k2, v) (by simp)
    have hrest : GoodMap rest := fun e he => hm e (by simp [he])
    unfold appendInst
    split
    · intro e he
      rcases List.mem_cons.mp he with h1 | h2
      · subst h1
        refine ⟨by rw [hhead.1], ?_⟩
        intro x hx
        rcases List.mem_append.mp hx with hx1 | hx2
        · exact hhead.2 x hx1
        · simp only [List.mem_singleton] at hx2
          subst hx2
          exact hi
      · exact hrest e h2
    · intro e he
      rcases List.mem_cons.mp he with h1 | h2
      · subst h1; exact hhead
      · exact ih hrest e h2

theorem goodMap_extractGo (ls : List String) :
    ∀ (m : FdlMap) (cur : Option String), GoodMap m → GoodMap (extractGo m cur ls) := by
  induction ls with
  | nil => intro m cur hm; exact hm
  | cons l ls ih =>
    intro m cur hm
    rw [extractGo_cons]
    apply ih
    unfold extractStep
    cases hd : scopeDeclOf l with
    | some t =>
      cases hi : stepInstOf l with
      | none => simpa [hd, hi] using goodMap_createKey t hm
      | some i =>
        simpa [hd, hi] using
          goodMap_appendInst t i (stepInstOf_ne_empty hi) (goodMap_createKey t hm)
    | none =>
      cases hc : cur with
      | none => simpa [hd] using hm
      | some t =>
        cases hi : stepInstOf l with
        | none => simpa [hd, hi] using hm
        | some i =>
          simpa [hd, hi] using goodMap_appendInst t i (stepInstOf_ne_empty hi) hm

/-- C7: for every feature document and scope `s`, the extractor entry for `s`
    exists exactly when some line declares `s`, and then both of its lists are
    precisely the trailing instruction tokens of the checked step lines whose
    most recently declared scope is `s`, in original document order
    (duplicates preserved, unchecked steps contributing nothing). -/
theorem extractor_returns_checked_instructions_in_order (text s : String) :
    lookupA s (extract_fdl_instructions text) =
      if declaresScope s (splitLinesPy text) then
        some ⟨collectFor s none (splitLinesPy text), collectFor s none (splitLinesPy text)⟩
      else none := by
  have h := extractGo_char s (splitLinesPy text) [] none (by intro h; cases h)
  simpa [extract_fdl_instructions, lookupA] using h

/-- C9: in every scope entry the extractor returns, the completed list equals
    the instructions list element for element, and no recorded entry is the
    empty (falsy) string. -/
theorem extractor_completed_equals_instructions (text : String) :
    (extract_fdl_instructions text).all
      (fun e => (e.2.completed == e.2.instructions) &&
                 e.2.completed.all (fun i => !(i == ""))) = true := by
  have hg : GoodMap (extract_fdl_instructions text) :=
    goodMap_extractGo (splitLinesPy text) [] none (by intro e he; cases he)
  rw [List.all_eq_true]
  intro e he
  obtain ⟨h1, h2⟩ := hg e he
  simp only [Bool.and_eq_true, beq_iff_eq, List.all_eq_true]
  exact ⟨h1, fun i hi => by simpa using h2 i hi⟩

/-- C10: checkbox-complete step lines that occur before any scope-declaration
    line are invisible to the extractor: running it on such a prefix followed
    by the rest of the document gives exactly the result for the rest alone,
    so no scope entry is created for them and their instruction ids are
    recorded nowhere. -/
theorem pre_scope_step_lines_ignored (pre post : List String)
    (h : ∀ l ∈ pre, scopeDeclOf l = none) :
    extractGo [] none (pre ++ post) = extractGo [] none post := by
  induction pre with
  | nil => simp
  | cons l ls ih =>
    have hd : scopeDeclOf l = none := h l (by simp)
    have hstep : extractStep [] none l = ([], none) := by
      simp [extractStep, hd]
    rw [List.cons_append, extractGo_cons]
    simp only [hstep]
    exact ih (fun x hx => h x (by simp [hx]))

theorem pre_scope_step_lines_ignored_witness :
    (∀ l ∈ ["1. [x] Implement the first step `inst-alpha`"], scopeDeclOf l = none) ∧
    extractGo [] none
        (["1. [x] Implement the first step `inst-alpha`"] ++
          ["- [ ] **ID**: `fdd-p-flow-s`", "1. [x] a `inst-b`"]) =
      extractGo [] none ["- [ ] **ID**: `fdd-p-flow-s`", "1. [x] a `inst-b`"] :=
  ⟨by decide, pre_scope_step_lines_ignored _ _ (by decide)⟩

/-! ## Placeholder scanner (`utils/text.py`, `find_placeholders`) -/

/-- Modelled from the spec: `PLACEHOLDER_RE` lives in the missing `constants.py`;
    spec section 4.3 fixes the unresolved-work vocabulary as TODO, TBD, FIXME,
    XXX and TBA, searched line by line. -/
def hasPlaceholderToken (line : String) : Bool :=
  ["TODO", "TBD", "FIXME", "XXX", "TBA"].any (fun tok => strContains line tok)

/-- Embedding of `find_placeholders` (`utils/text.py` lines 27-37): one hit per
    matching line, each hit pairing the 1-based line number with the line text
    exactly as it appears in the document (the source appends `line`, unstripped). -/
def find_placeholders (text : String) : List (Nat × String) :=
  (numberLines 1 (splitLinesPy text)).filter (fun p => hasPlaceholderToken p.2)

theorem mem_numberLines (i n : Nat) (l : String) (ls : List String) :
    (i, l) ∈ numberLines n ls ↔ n ≤ i ∧ ls.get? (i - n) = some l := by
  induction ls generalizing n with
  | nil => simp [numberLines]
  | cons x xs ih =>
    simp only [numberLines, List.mem_cons, ih]
    constructor
    · rintro (h | ⟨h1, h2⟩)
      · injection h with hi hl
        subst hi
        subst hl
        simp
      · refine ⟨by omega, ?_⟩
        have : i - n = (i - (n + 1)) + 1 := by omega
        rw [this]
        simpa using h2
    · rintro ⟨h1, h2⟩
      by_cases he : i = n
      · subst he
        simp at h2
        left
        rw [h2]
      · right
        refine ⟨by omega, ?_⟩
        have : i - n = (i - (n + 1)) + 1 := by omega
        rw [this] at h2
        simpa using h2

/-- C8 (amended): the placeholder scanner yields exactly one hit for each line
    containing an unresolved-work token, and the hit carries the 1-based number
    of that line together with the raw (unstripped) text of the line. -/
theorem placeholder_hits_characterization (text : String) (i : Nat) (l : String) :
    (i, l) ∈ find_placeholders text ↔
      1 ≤ i ∧ (splitLinesPy text).get? (i - 1) = some l ∧ hasPlaceholderToken l = true := by
  unfold find_placeholders
  rw [List.mem_filter, mem_numberLines]
  tauto

/-- C8 (counterexample to the claim as stated): on an indented TODO line the
    single reported hit stores the raw line, which differs from its trimmed
    text; and the unindented example line yields exactly one hit at line 1. -/
theorem placeholder_hit_text_not_trimmed_counterexample :
    find_placeholders "  - TODO: finish this" = [(1, "  - TODO: finish this")] ∧
    pyStrip "  - TODO: finish this" ≠ "  - TODO: finish this" ∧
    find_placeholders "- TODO: finish this" = [(1, "- TODO: finish this")] := by
  refine ⟨by decide, by decide, by decide⟩

/-! ## Generic section validation (`validation/artifacts/common.py`) -/

/-- One validation issue: the embedding of the heterogeneous issue dicts, with
    one optional field per payload key that appears in the source. -/
structure Issue where
  type : String := ""
  message : String := ""
  requirement : String := ""
  adr : String := ""
  requirements : String := ""
  ids : List String := []
  actors : List String := []
  allowed : List String := []
  required_order : List String := []
  found_order : List String := []
  missing : List String := []
  found : List String := []
  examples : List (String × String) := []
  count : Nat := 0
deriving DecidableEq, Repr

/-- The result dict of an artifact validation call. -/
structure ValidationResult where
  required_section_count : Nat := 0
  missing_sections : List (String × String) := []
  placeholder_hits : List (Nat × String) := []
  status : String := ""
  errors : List Issue := []
  adr_issues : List Issue := []
  requirement_issues : List Issue := []
  adr_count : Nat := 0
  requirement_count : Nat := 0
deriving DecidableEq, Repr

/-- Modelled from the spec: `HEADING_ID_RE` lives in the missing `constants.py`.
    Spec section 6 fixes top-level section headings as `## <Letter>. <Title>`,
    so the recognizer captures the single capital letter of such a line. -/
def headingId (s : String) : Option String :=
  match s.data with
  | '#' :: '#' :: c :: rest =>
    if isPyWs c then
      match rest.dropWhile isPyWs with
      | l :: '.' :: _ =>
        if decide ('A' ≤ l) && decide (l ≤ 'Z') then some (String.mk [l]) else none
      | _ => none
    else none
  | _ => none

/-- Embedding of `find_present_section_ids` (`utils/helpers.py` lines 24-31). -/
def find_present_section_ids (artifact_text : String) : List String :=
  (splitLinesPy artifact_text).filterMap (fun l => headingId (pyStrip l))

/-- The error list built by `validate_generic_sections` (`common.py` lines
    46-67): the duplicate-section check followed by the section-order check. -/
def genericErrors (present_ids_list : List String)
    (required_sections : List (String × String)) : List Issue :=
  let dup_sids :=
    sortStr ((present_ids_list.dedup).filter (fun sid => present_ids_list.count sid > 1))
  let errors1 : List Issue :=
    if !dup_sids.isEmpty then
      [{ type := "structure", message := "Duplicate section ids in artifact", ids := dup_sids }]
    else []
  let required_order := required_sections.map Prod.fst
  let present_required_in_order :=
    present_ids_list.filter (fun sid => (lookupA sid required_sections).isSome)
  errors1 ++
    (if present_required_in_order ≠ required_order then
      [{ type := "structure", message := "Sections are not in required order"
         required_order := required_order, found_order := present_required_in_order }]
    else [])

/-- Embedding of `validate_generic_sections` (`common.py` lines 14-78).  The
    `required_sections` association list is the output of the out-of-scope
    requirements-schema parser, in insertion order, and `requirements_path`
    stands for `str(requirements_path)`. -/
def validate_generic_sections (artifact_text : String)
    (required_sections : List (String × String)) (requirements_path : String) :
    ValidationResult :=
  if required_sections.isEmpty then
    { required_section_count := 0
      missing_sections := []
      placeholder_hits := find_placeholders artifact_text
      status := "FAIL"
      errors := [{ type := "requirements"
                   message := "Could not parse required sections from requirements file (expected headings like \x27### Section X: ...\x27)"
                   requirements := requirements_path }] }
  else
    let present_ids_list := find_present_section_ids artifact_text
    let missing := required_sections.filter (fun rs => !(present_ids_list.contains rs.1))
    let errors2 := genericErrors present_ids_list required_sections
    let placeholders := find_placeholders artifact_text
    let passed := missing.isEmpty && placeholders.isEmpty && errors2.isEmpty
    { required_section_count := required_sections.length
      missing_sections := missing
      placeholder_hits := placeholders
      status := if passed then "PASS" else "FAIL"
      errors := errors2 }

theorem genericErrors_order_mem (present : List String) (req : List (String × String)) :
    ((∃ e ∈ genericErrors present req, e.message = "Sections are not in required order") ↔
      present.filter (fun sid => (lookupA sid req).isSome) ≠ req.map Prod.fst) ∧
    (∀ e ∈ genericErrors present req, e.message = "Sections are not in required order" →
      e.type = "structure" ∧
      e.found_order = present.filter (fun sid => (lookupA sid req).isSome) ∧
      e.required_order = req.map Prod.fst) := by
  have hne : ("Duplicate section ids in artifact" : String) ≠
      "Sections are not in required order" := by decide
  unfold genericErrors
  by_cases h : present.filter (fun sid => (lookupA sid req).isSome) = req.map Prod.fst
  · by_cases hd :
        (!(sortStr ((present.dedup).filter (fun sid => present.count sid > 1))).isEmpty) = true
    · simp [h, hd, hne]
    · simp [h, hd]
  · by_cases hd :
        (!(sortStr ((present.dedup).filter (fun sid => present.count sid > 1))).isEmpty) = true
    · simp [h, hd, hne]
    · simp [h, hd]

/-- C4: the order-mismatch error appears exactly when the observed section
    codes restricted to the required codes differ from the canonical required
    order, and every such error reports the actual observed restricted
    sequence in `found_order` and the canonical order in `required_order`. -/
theorem section_order_error_iff_restricted_sequence_differs
    (artifact_text : String) (required_sections : List (String × String)) (path : String) :
    ((∃ e ∈ (validate_generic_sections artifact_text required_sections path).errors,
        e.message = "Sections are not in required order") ↔
      (find_present_section_ids artifact_text).filter
          (fun sid => (lookupA sid required_sections).isSome) ≠
        required_sections.map Prod.fst) ∧
    (∀ e ∈ (validate_generic_sections artifact_text required_sections path).errors,
      e.message = "Sections are not in required order" →
        e.type = "structure" ∧
        e.found_order = (find_present_section_ids artifact_text).filter
            (fun sid => (lookupA sid required_sections).isSome) ∧
        e.required_order = required_sections.map Prod.fst) := by
  by_cases hreq : required_sections.isEmpty
  · have hreq2 : required_sections = [] := List.isEmpty_iff.mp hreq
    subst hreq2
    constructor
    · simp [validate_generic_sections, lookupA,
        show ("Could not parse required sections from requirements file (expected headings like \x27### Section X: ...\x27)" : String) ≠
          "Sections are not in required order" by decide]
    · simp [validate_generic_sections,
        show ("Could not parse required sections from requirements file (expected headings like \x27### Section X: ...\x27)" : String) ≠
          "Sections are not in required order" by decide]
  · have herr : (validate_generic_sections artifact_text required_sections path).errors =
        genericErrors (find_present_section_ids artifact_text) required_sections := by
      simp [validate_generic_sections, hreq]
    rw [herr]
    exact genericErrors_order_mem (find_present_section_ids artifact_text) required_sections

/-! ## Code marker scanner (`fdl.py`, `extract_inst_tags_from_code`) -/

/-- Per-instruction record of the code-marker scan. -/
structure InstTag where
  has_begin : Bool := false
  has_end : Bool := false
  complete : Bool := false
  scopes : List String := []
deriving DecidableEq, Repr

abbrev TagMap := List (String × InstTag)

/-- `if inst_id not in inst_tags: inst_tags[inst_id] = {...}` -/
def ensureTag (i : String) (m : TagMap) : TagMap :=
  if (lookupA i m).isSome then m else m ++ [(i, ⟨false, false, false, []⟩)]

def updateTag (k : String) (f : InstTag → InstTag) : TagMap → TagMap
  | [] => []
  | (k2, v) :: rest => if k2 = k then (k2, f v) :: rest else (k2, v) :: updateTag k f rest

/-- `if scope_id not in inst_tags[inst_id]["scopes"]: ... .append(scope_id)` -/
def addScopeTo (s : String) (v : InstTag) : InstTag :=
  if s ∈ v.scopes then v else { v with scopes := v.scopes ++ [s] }

def recordBegin (m : TagMap) (s i : String) : TagMap :=
  updateTag i (fun v => addScopeTo s { v with has_begin := true }) (ensureTag i m)

def recordEnd (m : TagMap) (s i : String) : TagMap :=
  updateTag i (fun v => addScopeTo s { v with has_end := true }) (ensureTag i m)

/-- One loop iteration over a scanned line (`fdl.py` lines 113-132): the
    begin-pattern search is applied first, then the end-pattern search. -/
def markerLineStep (bOf eOf : String → Option (String × String))
    (m : TagMap) (line : String) : TagMap :=
  let m1 :=
    match bOf line with
    | some (s, i) => recordBegin m s i
    | none => m
  match eOf line with
  | some (s, i) => recordEnd m1 s i
  | none => m1

def scanLines (bOf eOf : String → Option (String × String)) (m : TagMap)
    (lines : List String) : TagMap :=
  lines.foldl (markerLineStep bOf eOf) m

/-- The final pass (`fdl.py` lines 156-157): `complete` iff both tags present. -/
def finalizeTags (m : TagMap) : TagMap :=
  m.map (fun p => (p.1, { p.2 with complete := p.2.has_begin && p.2.has_end }))

/-- The scan over the visited files of the tree.  Directory walking, the
    extension allow-list and the directory deny-list are the filesystem
    collaborator; the embedding receives the lines of each visited file. -/
def scanMarkerFiles (bOf eOf : String → Option (String × String))
    (files : List (List String)) : TagMap :=
  finalizeTags (files.foldl (scanLines bOf eOf) [])

/-- The kind alternation `(?:-flow|-algo|-state|-req|-test|-change)` of the
    marker patterns in `fdl.py`, with its delimiting hyphens. -/
def kindInfixes : List (List Char) :=
  ["-flow-".data, "-algo-".data, "-state-".data, "-req-".data, "-test-".data, "-change-".data]

/-- Whether `k` occurs inside `cs` with at least one character before it and
    at least one after it. -/
def hasProperInfix (k : List Char) : List Char → Bool
  | [] => false
  | _ :: rest =>
    (match dropPrefixCs k rest with
     | some tl => if tl.isEmpty then hasProperInfix k rest else true
     | none => hasProperInfix k rest)

/-- Whether a maximal `[a-z0-9-]` run is of the shape
    `[a-z0-9-]+(?:-flow|-algo|-state|-req|-test|-change)-[a-z0-9-]+`. -/
def scopeShapeOk (run : List Char) : Bool :=
  kindInfixes.any (fun k => hasProperInfix k run)

/-- Matching one marker pattern of `fdl.py` (lines 109-111) at the start of
    `cs`: the literal tag, whitespace, a scope id of the constrained shape,
    `:ph-<digits>:` and an `inst-` token.  The character classes exclude the
    delimiters that follow them, so the greedy runs of the pattern are exactly
    the maximal runs taken here. -/
def markerAt (tag : List Char) (cs : List Char) : Option (String × String) :=
  match dropPrefixCs tag cs with
  | none => none
  | some rest =>
    let ws := rest.takeWhile isPyWs
    if ws.isEmpty then none
    else
      match dropPrefixCs "fdd-".data (rest.drop ws.length) with
      | none => none
      | some r3 =>
        let run := r3.takeWhile isIdChar
        if !(scopeShapeOk run) then none
        else
          match r3.drop run.length with
          | ':' :: 'p' :: 'h' :: '-' :: r5 =>
            let ds := r5.takeWhile Char.isDigit
            if ds.isEmpty then none
            else
              (match r5.drop ds.length with
               | ':' :: r6 =>
                 (match dropPrefixCs "inst-".data r6 with
                  | none => none
                  | some r7 =>
                    let irun := r7.takeWhile isIdChar
                    if irun.isEmpty then none
                    else some ("fdd-" ++ String.mk run, "inst-" ++ String.mk irun))
               | _ => none)
          | _ => none

/-- `re.search` of a marker pattern over a line: the leftmost start position
    at which `markerAt` succeeds. -/
def markerSearch (tag : List Char) : List Char → Option (String × String)
  | [] => markerAt tag []
  | c :: rest =>
    match markerAt tag (c :: rest) with
    | some r => some r
    | none => markerSearch tag rest

/-- The begin-marker search of `fdl.py` line 115. -/
def lineBeginMatch (line : String) : Option (String × String) :=
  markerSearch "fdd-begin".data line.data

/-- The end-marker search of `fdl.py` line 125. -/
def lineEndMatch (line : String) : Option (String × String) :=
  markerSearch "fdd-end".data line.data

/-- Embedding of `extract_inst_tags_from_code` (`fdl.py` lines 89-159) on the
    in-memory contents of the visited files. -/
def extract_inst_tags_from_code (files : List (List String)) : TagMap :=
  scanMarkerFiles lineBeginMatch lineEndMatch files

def tagHasBegin (m : TagMap) (j : String) : Bool :=
  match lookupA j m with
  | some v => v.has_begin
  | none => false

def tagHasEnd (m : TagMap) (j : String) : Bool :=
  match lookupA j m with
  | some v => v.has_end
  | none => false

def tagPresent (m : TagMap) (j : String) : Bool := (lookupA j m).isSome

theorem lookupA_updateTag (k j : String) (f : InstTag → InstTag) (m : TagMap) :
    lookupA j (updateTag k f m) = if k = j then (lookupA j m).map f else lookupA j m := by
  induction m with
  | nil => simp [updateTag, lookupA]
  | cons p rest ih =>
    obtain ⟨k2, v⟩ := p
    by_cases h2 : k2 = k
    · subst h2
      by_cases hj : k2 = j
      · subst hj
        simp [updateTag, lookupA]
      · simp [updateTag, lookupA, hj]
    · by_cases hj : k2 = j
      · subst hj
        simp [updateTag, lookupA, h2, Ne.symm h2]
      · simp [updateTag, lookupA, h2, hj, ih]

theorem lookupA_ensureTag (k j : String) (m : TagMap) :
    lookupA j (ensureTag k m) =
      if k = j then some ((lookupA j m).getD ⟨false, false, false, []⟩)
      else lookupA j m := by
  unfold ensureTag
  cases hv : lookupA k m with
  | some v =>
    simp only [hv, Option.isSome_some, if_true]
    by_cases he : k = j
    · subst he
      simp [hv]
    · simp [he]
  | none =>
    simp only [hv, Option.isSome_none, Bool.false_eq_true, if_false]
    by_cases he : k = j
    · subst he
      rw [lookupA_append, hv]
      simp [lookupA]
    · rw [lookupA_append]
      cases hv2 : lookupA j m with
      | some w => simp [he]
      | none => simp [lookupA, he]

theorem addScopeTo_has_begin (s : String) (v : InstTag) :
    (addScopeTo s v).has_begin = v.has_begin := by
  unfold addScopeTo
  split <;> rfl

theorem addScopeTo_has_end (s : String) (v : InstTag) :
    (addScopeTo s v).has_end = v.has_end := by
  unfold addScopeTo
  split <;> rfl

theorem tagHasBegin_recordBegin (m : TagMap) (s i j : String) :
    tagHasBegin (recordBegin m s i) j = (tagHasBegin m j || (i == j)) := by
  unfold tagHasBegin recordBegin
  rw [lookupA_updateTag, lookupA_ensureTag]
  by_cases he : i = j
  · subst he
    cases hv : lookupA i m <;> simp [hv, addScopeTo_has_begin]
  · cases hv : lookupA j m <;> simp [hv, he, beq_iff_eq]

theorem tagHasEnd_recordBegin (m : TagMap) (s i j : String) :
    tagHasEnd (recordBegin m s i) j = tagHasEnd m j := by
  unfold tagHasEnd recordBegin
  rw [lookupA_updateTag, lookupA_ensureTag]
  by_cases he : i = j
  · subst he
    cases hv : lookupA i m <;> simp [hv, addScopeTo_has_end]
  · cases hv : lookupA j m <;> simp [hv, he]

theorem tagHasEnd_recordEnd (m : TagMap) (s i j : String) :
    tagHasEnd (recordEnd m s i) j = (tagHasEnd m j || (i == j)) := by
  unfold tagHasEnd recordEnd
  rw [lookupA_updateTag, lookupA_ensureTag]
  by_cases he : i = j
  · subst he
    cases hv : lookupA i m <;> simp [hv, addScopeTo_has_end]
  · cases hv : lookupA j m <;> simp [hv, he, beq_iff_eq]

theorem tagHasBegin_recordEnd (m : TagMap) (s i j : String) :
    tagHasBegin (recordEnd m s i) j = tagHasBegin m j := by
  unfold tagHasBegin recordEnd
  rw [lookupA_updateTag, lookupA_ensureTag]
  by_cases he : i = j
  · subst he
    cases hv : lookupA i m <;> simp [hv, addScopeTo_has_begin]
  · cases hv : lookupA j m <;> simp [hv, he]

theorem tagPresent_recordBegin (m : TagMap) (s i j : String) :
    tagPresent (recordBegin m s i) j = (tagPresent m j || (i == j)) := by
  unfold tagPresent recordBegin
  rw [lookupA_updateTag, lookupA_ensureTag]
  by_cases he : i = j
  · subst he
    cases hv : lookupA i m <;> simp [hv]
  · cases hv : lookupA j m <;> simp [hv, he, beq_iff_eq]

theorem tagPresent_recordEnd (m : TagMap) (s i j : String) :
    tagPresent (recordEnd m s i) j = (tagPresent m j || (i == j)) := by
  unfold tagPresent recordEnd
  rw [lookupA_updateTag, lookupA_ensureTag]
  by_cases he : i = j
  · subst he
    cases hv : lookupA i m <;> simp [hv]
  · cases hv : lookupA j m <;> simp [hv, he, beq_iff_eq]

/-- Whether a line carries a begin marker for instruction `j`, as seen by the
    line matcher. -/
def lineB (bOf : String → Option (String × String)) (l : String) (j : String) : Bool :=
  match bOf l with
  | some (_, i) => i == j
  | none => false

theorem tagHasBegin_step (bOf eOf : String → Option (String × String))
    (m : TagMap) (l : String) (j : String) :
    tagHasBegin (markerLineStep bOf eOf m l) j = (tagHasBegin m j || lineB bOf l j) := by
  unfold markerLineStep lineB
  cases hb : bOf l with
  | some p =>
    obtain ⟨s, i⟩ := p
    cases he : eOf l with
    | some q =>
      obtain ⟨s2, i2⟩ := q
      simp [tagHasBegin_recordEnd, tagHasBegin_recordBegin]
    | none => simp [tagHasBegin_recordBegin]
  | none =>
    cases he : eOf l with
    | some q =>
      obtain ⟨s2, i2⟩ := q
      simp [tagHasBegin_recordEnd]
    | none => simp

theorem tagHasEnd_step (bOf eOf : String → Option (String × String))
    (m : TagMap) (l : String) (j : String) :
    tagHasEnd (markerLineStep bOf eOf m l) j = (tagHasEnd m j || lineB eOf l j) := by
  unfold markerLineStep lineB
  cases hb : bOf l with
  | some p =>
    obtain ⟨s, i⟩ := p
    cases he : eOf l with
    | some q =>
      obtain ⟨s2, i2⟩ := q
      simp [tagHasEnd_recordEnd, tagHasEnd_recordBegin]
    | none => simp [tagHasEnd_recordBegin]
  | none =>
    cases he : eOf l with
    | some q =>
      obtain ⟨s2, i2⟩ := q
      simp [tagHasEnd_recordEnd]
    | none => simp

theorem scanLines_hasBegin (bOf eOf : String → Option (String × String))
    (ls : List String) : ∀ (m : TagMap) (j : String),
    tagHasBegin (scanLines bOf eOf m ls) j =
      (tagHasBegin m j || ls.any (fun l => lineB bOf l j)) := by
  induction ls with
  | nil => intro m j; simp [scanLines]
  | cons l ls ih =>
    intro m j
    show tagHasBegin (scanLines bOf eOf (markerLineStep bOf eOf m l) ls) j = _
    rw [ih]
    simp [tagHasBegin_step, Bool.or_assoc]

theorem scanLines_hasEnd (bOf eOf : String → Option (String × String))
    (ls : List String) : ∀ (m : TagMap) (j : String),
    tagHasEnd (scanLines bOf eOf m ls) j =
      (tagHasEnd m j || ls.any (fun l => lineB eOf l j)) := by
  induction ls with
  | nil => intro m j; simp [scanLines]
  | cons l ls ih =>
    intro m j
    show tagHasEnd (scanLines bOf eOf (markerLineStep bOf eOf m l) ls) j = _
    rw [ih]
    simp [tagHasEnd_step, Bool.or_assoc]

theorem filesFold_hasBegin (bOf eOf : String → Option (String × String))
    (files : List (List String)) : ∀ (m : TagMap) (j : String),
    tagHasBegin (files.foldl (scanLines bOf eOf) m) j =
      (tagHasBegin m j || files.any (fun f => f.any (fun l => lineB bOf l j))) := by
  induction files with
  | nil => intro m j; simp
  | cons f fs ih =>
    intro m j
    show tagHasBegin (fs.foldl (scanLines bOf eOf) (scanLines bOf eOf m f)) j = _
    rw [ih]
    simp [scanLines_hasBegin, Bool.or_assoc]

theorem filesFold_hasEnd (bOf eOf : String → Option (String × String))
    (files : List (List String)) : ∀ (m : TagMap) (j : String),
    tagHasEnd (files.foldl (scanLines bOf eOf) m) j =
      (tagHasEnd m j || files.any (fun f => f.any (fun l => lineB eOf l j))) := by
  induction files with
  | nil => intro m j; simp
  | cons f fs ih =>
    intro m j
    show tagHasEnd (fs.foldl (scanLines bOf eOf) (scanLines bOf eOf m f)) j = _
    rw [ih]
    simp [scanLines_hasEnd, Bool.or_assoc]

theorem lookupA_finalizeTags (j : String) (m : TagMap) :
    lookupA j (finalizeTags m) =
      (lookupA j m).map (fun v => { v with complete := v.has_begin && v.has_end }) := by
  induction m with
  | nil => simp [finalizeTags, lookupA]
  | cons p rest ih =>
    obtain ⟨k2, v⟩ := p
    by_cases hj : k2 = j
    · subst hj
      simp [finalizeTags, lookupA]
    · simp only [finalizeTags, List.map_cons, lookupA, hj, if_false]
      simpa [finalizeTags] using ih

theorem lineB_iff (bOf : String → Option (String × String)) (l j : String) :
    lineB bOf l j = true ↔ ∃ s, bOf l = some (s, j) := by
  unfold lineB
  cases hb : bOf l with
  | some p =>
    obtain ⟨s, i⟩ := p
    simp only [beq_iff_eq]
    constructor
    · rintro rfl
      exact ⟨s, rfl⟩
    · rintro ⟨s2, hs⟩
      injection hs with hp
      injection hp with h1 h2
  | none =>
    simp only [Bool.false_eq_true, false_iff, not_exists]
    intro s hs
    cases hs

/-- C3: an instruction is recorded as complete by the code-marker scanner iff a
    begin marker and an end marker naming it are observed somewhere among the
    scanned files: in either order, at any distance, in the same file or not. -/
theorem code_marker_complete_iff_begin_and_end_observed
    (files : List (List String)) (inst : String) :
    (∃ v, lookupA inst (extract_inst_tags_from_code files) = some v ∧ v.complete = true) ↔
      ((∃ f ∈ files, ∃ l ∈ f, ∃ s, lineBeginMatch l = some (s, inst)) ∧
       (∃ f ∈ files, ∃ l ∈ f, ∃ s, lineEndMatch l = some (s, inst))) := by
  unfold extract_inst_tags_from_code scanMarkerFiles
  have hb := filesFold_hasBegin lineBeginMatch lineEndMatch files [] inst
  have he := filesFold_hasEnd lineBeginMatch lineEndMatch files [] inst
  simp only [tagHasBegin, tagHasEnd, lookupA] at hb he
  rw [lookupA_finalizeTags]
  constructor
  · rintro ⟨v, hv, hc⟩
    cases hm : lookupA inst (files.foldl (scanLines lineBeginMatch lineEndMatch) []) with
    | none => rw [hm] at hv; cases hv
    | some w =>
      rw [hm] at hv hb he
      simp only [Bool.false_or] at hb he
      injection hv with hv2
      subst hv2
      obtain ⟨hbt, het⟩ : w.has_begin = true ∧ w.has_end = true := by
        simpa using hc
      constructor
      · have h1 : files.any (fun f => f.any (fun l => lineB lineBeginMatch l inst)) = true := by
          rw [← hb]
          exact hbt
        simpa [List.any_eq_true, lineB_iff] using h1
      · have h2 : files.any (fun f => f.any (fun l => lineB lineEndMatch l inst)) = true := by
          rw [← he]
          exact het
        simpa [List.any_eq_true, lineB_iff] using h2
  · rintro ⟨hbe, hee⟩
    have hbany : files.any (fun f => f.any (fun l => lineB lineBeginMatch l inst)) = true := by
      simpa [List.any_eq_true, lineB_iff] using hbe
    have heany : files.any (fun f => f.any (fun l => lineB lineEndMatch l inst)) = true := by
      simpa [List.any_eq_true, lineB_iff] using hee
    cases hm : lookupA inst (files.foldl (scanLines lineBeginMatch lineEndMatch) []) with
    | none =>
      rw [hm] at hb
      simp [hbany] at hb
    | some w =>
      rw [hm] at hb he
      simp only [Bool.false_or] at hb he
      rw [hbany] at hb
      rw [heany] at he
      refine ⟨{ w with complete := w.has_begin && w.has_end }, by simp [hm], ?_⟩
      simp [hb, he]

/-! ## Overall design validation (`validation/artifacts/adr.py`, `validate_overall_design`) -/

/-- Modelled from the spec: the typed-identifier recognition patterns
    (`ACTOR_ID_RE`, `CAPABILITY_ID_RE`, `USECASE_ID_RE`, `REQ_ID_RE`,
    `PRINCIPLE_ID_RE`, `ADR_ID_RE`, `ADR_NUM_RE`) live in the missing
    `constants.py`; spec section 3 describes them only as per-kind recognition
    patterns, so the embedding abstracts each `findall` as a function. -/
structure IdFns where
  findActors : String → List String
  findCaps : String → List String
  findUsecases : String → List String
  findReqs : String → List String
  findPrinciples : String → List String
  findAdrIds : String → List String
  findAdrNums : String → List Nat

/-- The inline sub-section pattern `^###\s+C\.(\d+)\s*[:.]` of
    `validate_overall_design` (line 158), applied per line. -/
def cSubOf (line : String) : Option String :=
  match line.data with
  | '#' :: '#' :: '#' :: rest =>
    let ws := rest.takeWhile isPyWs
    if ws.isEmpty then none
    else
      match rest.drop ws.length with
      | 'C' :: '.' :: r2 =>
        let ds := r2.takeWhile Char.isDigit
        if ds.isEmpty then none
        else
          (match (r2.drop ds.length).dropWhile isPyWs with
           | ':' :: _ => some (String.mk ds)
           | '.' :: _ => some (String.mk ds)
           | _ => none)
      | _ => none
  | _ => none

/-- A requirement block (`adr.py` lines 192-211): the requirement id and the
    reference sets collected from the block text. -/
structure ReqBlock where
  id : String
  caps : List String
  actors : List String
  usecases : List String
  adr_ids : List String
deriving DecidableEq, Repr

/-- Indices of lines that contain the `**ID**:` label and a requirement id. -/
def reqIdxs (F : IdFns) (lines : List String) : List Nat :=
  (numberLines 0 lines).filterMap (fun p =>
    if strContains p.2 "**ID**:" && !(F.findReqs p.2).isEmpty then some p.1 else none)

/-- `lines[start:end]` slices between consecutive requirement-id indices. -/
def blockSlices (lines : List String) : List Nat → List (List String)
  | [] => []
  | [i] => [lines.drop i]
  | i :: j :: rest => ((lines.drop i).take (j - i)) :: blockSlices lines (j :: rest)

/-- Resolution of bare decision numbers through the number-to-id mapping;
    a falsy (empty) mapped id is skipped, as `if mapped:` does. -/
def resolveAdrNums (adrNumToId : List (Nat × String)) (nums : List Nat) : List String :=
  nums.filterMap (fun n =>
    match lookupA n adrNumToId with
    | some mapped => if mapped = "" then none else some mapped
    | none => none)

def mkBlock (F : IdFns) (adrNumToId : List (Nat × String)) (block : List String) :
    Option ReqBlock :=
  match (F.findReqs (block.headD "")).head? with
  | none => none
  | some rid =>
    if rid = "" then none
    else
      let bt := joinLines block
      some ⟨rid, (F.findCaps bt).dedup, (F.findActors bt).dedup, (F.findUsecases bt).dedup,
            setUnion (F.findAdrIds bt).dedup (resolveAdrNums adrNumToId (F.findAdrNums bt))⟩

/-- The requirement blocks of the design document (`adr.py` lines 192-211). -/
def reqBlocksOf (F : IdFns) (adrNumToId : List (Nat × String)) (text : String) :
    List ReqBlock :=
  let lines := splitLinesPy text
  (blockSlices lines (reqIdxs F lines)).filterMap (mkBlock F adrNumToId)

/-- The union of the permitted-actor sets of the referenced capabilities
    (`allowed` in `adr.py` lines 244-246). -/
def allowedOf (capsToActors : List (String × List String)) (caps : List String) :
    List String :=
  caps.foldl (fun acc c => setUnion acc ((lookupA c capsToActors).getD [])) []

/-- Python `set(actors).issubset(allowed)`. -/
def subsetB (a b : List String) : Bool := a.all (fun x => b.contains x)

/-- Missing-capability check of the requirement loop (`adr.py` lines 226-227). -/
def missingCapIssue (rb : ReqBlock) : List Issue :=
  if rb.caps.isEmpty then
    [{ requirement := rb.id, message := "Missing capability references" }] else []

/-- Missing-actor check of the requirement loop (lines 228-229). -/
def missingActorIssue (rb : ReqBlock) : List Issue :=
  if rb.actors.isEmpty then
    [{ requirement := rb.id, message := "Missing actor references" }] else []

/-- Unknown-actor check of the requirement loop (lines 235-238). -/
def unknownActorIssue (businessActors : List String) (rb : ReqBlock) : List Issue :=
  if businessActors ≠ [] then
    (let bad := sortStr (rb.actors.filter (fun a => !(businessActors.contains a)))
     if bad ≠ [] then
       [{ requirement := rb.id, message := "Unknown actor IDs", ids := bad }] else [])
  else []

/-- Unknown-capability check of the requirement loop (lines 240-243). -/
def unknownCapIssue (capsToActors : List (String × List String)) (rb : ReqBlock) :
    List Issue :=
  if capsToActors ≠ [] then
    (let bad := sortStr (rb.caps.filter (fun c => !((lookupA c capsToActors).isSome)))
     if bad ≠ [] then
       [{ requirement := rb.id, message := "Unknown capability IDs", ids := bad }] else [])
  else []

/-- Actor-subset check of the requirement loop (lines 244-248), under the same
    `if business_caps_to_actors:` gate as the unknown-capability check. -/
def subsetIssue (capsToActors : List (String × List String)) (rb : ReqBlock) : List Issue :=
  if capsToActors ≠ [] then
    (let allowed := allowedOf capsToActors rb.caps
     if allowed ≠ [] ∧ rb.actors ≠ [] ∧ ¬(subsetB rb.actors allowed = true) then
       [{ requirement := rb.id, message := "Actors must match actors of referenced capabilities"
          actors := sortStr rb.actors, allowed := sortStr allowed }]
     else [])
  else []

/-- Unknown-use-case check of the requirement loop (lines 250-253). -/
def unknownUcIssue (businessUsecases : List String) (rb : ReqBlock) : List Issue :=
  if businessUsecases ≠ [] ∧ rb.usecases ≠ [] then
    (let bad := sortStr (rb.usecases.filter (fun u => !(businessUsecases.contains u)))
     if bad ≠ [] then
       [{ requirement := rb.id, message := "Unknown use case IDs", ids := bad }] else [])
  else []

/-- Unknown-ADR check of the requirement loop (lines 255-258). -/
def unknownAdrIssue (adrIds : List String) (rb : ReqBlock) : List Issue :=
  if adrIds ≠ [] ∧ rb.adr_ids ≠ [] then
    (let bad := sortStr (rb.adr_ids.filter (fun a => !(adrIds.contains a)))
     if bad ≠ [] then
       [{ requirement := rb.id, message := "Unknown ADR references", ids := bad }] else [])
  else []

/-- The issues the requirement loop body reports for one block
    (`adr.py` lines 221-258), in source order. -/
def perBlockIssues (businessActors : List String)
    (capsToActors : List (String × List String)) (businessUsecases : List String)
    (adrIds : List String) (rb : ReqBlock) : List Issue :=
  missingCapIssue rb ++ missingActorIssue rb ++ unknownActorIssue businessActors rb ++
    unknownCapIssue capsToActors rb ++ subsetIssue capsToActors rb ++
    unknownUcIssue businessUsecases rb ++ unknownAdrIssue adrIds rb

/-- `cap_covered`: the capabilities referenced by at least one block. -/
def capCovered (blocks : List ReqBlock) : List String :=
  blocks.foldl (fun acc rb => setUnion acc rb.caps) []

/-- `uc_covered`: the use cases referenced by at least one block. -/
def ucCovered (blocks : List ReqBlock) : List String :=
  blocks.foldl (fun acc rb => setUnion acc rb.usecases) []

/-- The top-level structure errors of `validate_overall_design`
    (lines 152-162). -/
def structureErrors (missing c_subs : List String) : List Issue :=
  (if missing ≠ [] then
    [{ type := "structure", message := "Missing required top-level sections", missing := missing }]
   else []) ++
  (if c_subs ≠ [] ∧ c_subs ≠ ["1", "2", "3", "4", "5"] then
    [{ type := "structure", message := "Section C must have exactly C.1..C.5 in order"
       found := c_subs }]
   else [])

/-- The orphaned-capabilities traceability error (lines 260-263). -/
def orphanCapErrors (capsToActors : List (String × List String)) (cap_cov : List String) :
    List Issue :=
  if capsToActors ≠ [] then
    (let missing_caps :=
       sortStr ((capsToActors.map Prod.fst).filter (fun c => !(cap_cov.contains c)))
     if missing_caps ≠ [] then
       [{ type := "traceability"
          message := "Orphaned capabilities (not referenced in DESIGN.md requirements)"
          ids := missing_caps }]
     else [])
  else []

/-- The orphaned-use-cases traceability error (lines 265-268). -/
def orphanUcErrors (businessUsecases uc_cov : List String) : List Issue :=
  if businessUsecases ≠ [] then
    (let missing_uc := sortStr (businessUsecases.filter (fun u => !(uc_cov.contains u)))
     if missing_uc ≠ [] then
       [{ type := "traceability"
          message := "Orphaned use cases (not referenced in DESIGN.md requirements)"
          ids := missing_uc }]
     else [])
  else []

/-- The orphaned-ADRs traceability error (lines 270-279), whose coverage is
    computed over the entire document text. -/
def orphanAdrErrors (adrIds covered : List String) : List Issue :=
  if adrIds ≠ [] then
    (let missing_adrs := sortStr (adrIds.filter (fun a => !(covered.contains a)))
     if missing_adrs ≠ [] then
       [{ type := "traceability", message := "Orphaned ADRs (not referenced in DESIGN.md)"
          ids := missing_adrs }]
     else [])
  else []

/-- Embedding of `validate_overall_design` (`adr.py` lines 141-290).  The
    business model triple, the decision index data and the cross-reference
    load errors come from the filesystem collaborator (empty when loading is
    skipped); the in-document analysis is translated from the source. -/
def validate_overall_design (F : IdFns) (artifact_text : String)
    (businessActors : List String) (capsToActors : List (String × List String))
    (businessUsecases : List String) (adrIds : List String)
    (adrNumToId : List (Nat × String)) (crossErrors : List Issue) : ValidationResult :=
  let placeholders := find_placeholders artifact_text
  let present := find_present_section_ids artifact_text
  let missing := ["A", "B", "C"].filter (fun s => !(present.contains s))
  let c_subs := (splitLinesPy artifact_text).filterMap cSubOf
  let blocks := reqBlocksOf F adrNumToId artifact_text
  let reqIssues :=
    (if blocks.isEmpty then [{ message := "No functional requirement IDs found" }] else []) ++
    blocks.flatMap (perBlockIssues businessActors capsToActors businessUsecases adrIds)
  let covered := setUnion (F.findAdrIds artifact_text).dedup
    (resolveAdrNums adrNumToId (F.findAdrNums artifact_text))
  let errors := structureErrors missing c_subs ++ crossErrors ++
    orphanCapErrors capsToActors (capCovered blocks) ++
    orphanUcErrors businessUsecases (ucCovered blocks) ++
    orphanAdrErrors adrIds covered
  let passed := errors.isEmpty && reqIssues.isEmpty && placeholders.isEmpty
  { required_section_count := 3
    missing_sections := missing.map (fun s => (s, ""))
    placeholder_hits := placeholders
    status := if passed then "PASS" else "FAIL"
    errors := errors
    requirement_issues := reqIssues
    requirement_count := blocks.length }

theorem missingCapIssue_msg {rb : ReqBlock} {e : Issue} (h : e ∈ missingCapIssue rb) :
    e.message = "Missing capability references" := by
  unfold missingCapIssue at h
  split at h
  · simp only [List.mem_singleton] at h
    subst h
    rfl
  · cases h

theorem missingActorIssue_msg {rb : ReqBlock} {e : Issue} (h : e ∈ missingActorIssue rb) :
    e.message = "Missing actor references" := by
  unfold missingActorIssue at h
  split at h
  · simp only [List.mem_singleton] at h
    subst h
    rfl
  · cases h

theorem unknownActorIssue_msg {b : List String} {rb : ReqBlock} {e : Issue}
    (h : e ∈ unknownActorIssue b rb) : e.message = "Unknown actor IDs" := by
  unfold unknownActorIssue at h
  split at h
  · dsimp only at h
    split at h
    · simp only [List.mem_singleton] at h
      subst h
      rfl
    · cases h
  · cases h

theorem unknownCapIssue_msg {c : List (String × List String)} {rb : ReqBlock} {e : Issue}
    (h : e ∈ unknownCapIssue c rb) : e.message = "Unknown capability IDs" := by
  unfold unknownCapIssue at h
  split at h
  · dsimp only at h
    split at h
    · simp only [List.mem_singleton] at h
      subst h
      rfl
    · cases h
  · cases h

theorem unknownUcIssue_msg {b : List String} {rb : ReqBlock} {e : Issue}
    (h : e ∈ unknownUcIssue b rb) : e.message = "Unknown use case IDs" := by
  unfold unknownUcIssue at h
  split at h
  · dsimp only at h
    split at h
    · simp only [List.mem_singleton] at h
      subst h
      rfl
    · cases h
  · cases h

theorem unknownAdrIssue_msg {b : List String} {rb : ReqBlock} {e : Issue}
    (h : e ∈ unknownAdrIssue b rb) : e.message = "Unknown ADR references" := by
  unfold unknownAdrIssue at h
  split at h
  · dsimp only at h
    split at h
    · simp only [List.mem_singleton] at h
      subst h
      rfl
    · cases h
  · cases h

theorem subsetIssue_eq (capsToActors : List (String × List String)) (rb : ReqBlock) :
    subsetIssue capsToActors rb =
      if capsToActors ≠ [] ∧ allowedOf capsToActors rb.caps ≠ [] ∧ rb.actors ≠ [] ∧
          ¬(subsetB rb.actors (allowedOf capsToActors rb.caps) = true) then
        [{ requirement := rb.id, message := "Actors must match actors of referenced capabilities"
           actors := sortStr rb.actors, allowed := sortStr (allowedOf capsToActors rb.caps) }]
      else [] := by
  unfold subsetIssue
  by_cases hg : capsToActors ≠ []
  · rw [if_pos hg]
    dsimp only
    by_cases h2 : allowedOf capsToActors rb.caps ≠ [] ∧ rb.actors ≠ [] ∧
        ¬(subsetB rb.actors (allowedOf capsToActors rb.caps) = true)
    · rw [if_pos h2, if_pos ⟨hg, h2⟩]
    · rw [if_neg h2, if_neg (by tauto)]
  · rw [if_neg hg, if_neg (by tauto)]

/-- C5 (amended): the actor-subset violation is reported for a requirement
    block exactly when the business capability map is non-empty, the union of
    the permitted-actor sets of the referenced capabilities is non-empty, the
    block's actor set is non-empty, and that actor set is not a subset of the
    union; the issue then lists the sorted actors and the sorted allowed set.
    In particular, when the union is empty (for instance because every
    referenced capability is unknown to the business model), no subset
    violation is reported even though the actor set is not a subset. -/
theorem actor_subset_violation_iff (businessActors : List String)
    (capsToActors : List (String × List String)) (businessUsecases adrIds : List String)
    (rb : ReqBlock) :
    (∃ e ∈ perBlockIssues businessActors capsToActors businessUsecases adrIds rb,
        e.message = "Actors must match actors of referenced capabilities" ∧
        e.actors = sortStr rb.actors ∧
        e.allowed = sortStr (allowedOf capsToActors rb.caps)) ↔
      (capsToActors ≠ [] ∧ allowedOf capsToActors rb.caps ≠ [] ∧ rb.actors ≠ [] ∧
        ¬(subsetB rb.actors (allowedOf capsToActors rb.caps) = true)) := by
  constructor
  · rintro ⟨e, he, hmsg, hact, hall⟩
    unfold perBlockIssues at he
    rcases List.mem_append.mp he with h1 | hAdr
    · rcases List.mem_append.mp h1 with h2 | hUc
      · rcases List.mem_append.mp h2 with h3 | hSub
        · rcases List.mem_append.mp h3 with h4 | hCap
          · rcases List.mem_append.mp h4 with h5 | hAct
            · rcases List.mem_append.mp h5 with hMC | hMA
              · have := missingCapIssue_msg hMC
                rw [hmsg] at this
                exact absurd this (by decide)
              · have := missingActorIssue_msg hMA
                rw [hmsg] at this
                exact absurd this (by decide)
            · have := unknownActorIssue_msg hAct
              rw [hmsg] at this
              exact absurd this (by decide)
          · have := unknownCapIssue_msg hCap
            rw [hmsg] at this
            exact absurd this (by decide)
        · rw [subsetIssue_eq] at hSub
          by_cases hcond : capsToActors ≠ [] ∧ allowedOf capsToActors rb.caps ≠ [] ∧
              rb.actors ≠ [] ∧ ¬(subsetB rb.actors (allowedOf capsToActors rb.caps) = true)
          · exact hcond
          · rw [if_neg hcond] at hSub
            cases hSub
      · have := unknownUcIssue_msg hUc
        rw [hmsg] at this
        exact absurd this (by decide)
    · have := unknownAdrIssue_msg hAdr
      rw [hmsg] at this
      exact absurd this (by decide)
  · intro hcond
    refine ⟨{ requirement := rb.id
              message := "Actors must match actors of referenced capabilities"
              actors := sortStr rb.actors
              allowed := sortStr (allowedOf capsToActors rb.caps) }, ?_, rfl, rfl, rfl⟩
    unfold perBlockIssues
    refine List.mem_append.mpr (Or.inl (List.mem_append.mpr (Or.inl
      (List.mem_append.mpr (Or.inr ?_)))))
    rw [subsetIssue_eq, if_pos hcond]
    simp

/-- Backtick-quoted tokens of a line, in order; an unclosed backtick yields no
    further tokens.  Used to build concrete identifier recognizers. -/
def backtickTokensGo (cur : Option (List Char)) : List Char → List String
  | [] => []
  | c :: rest =>
    match cur with
    | none =>
      if c = '`' then backtickTokensGo (some []) rest else backtickTokensGo none rest
    | some acc =>
      if c = '`' then String.mk acc.reverse :: backtickTokensGo none rest
      else backtickTokensGo (some (c :: acc)) rest

def backtickTokens (line : String) : List String := backtickTokensGo none line.data

/-- Modelled from the spec: a concrete instance of the identifier recognizers
    for evaluating the traceability engine on explicit documents; spec
    section 6 has identifiers appear as backtick-quoted typed tokens, so each
    kind recognizes its backticked prefix. -/
def extractPrefixed (pre : String) (line : String) : List String :=
  (backtickTokens line).filter (fun t => (dropPrefixCs pre.data t.data).isSome)

/-- Concrete identifier recognizers used by the counterexample documents. -/
def specIdFns : IdFns :=
  { findActors := extractPrefixed "actor-"
    findCaps := extractPrefixed "cap-"
    findUsecases := extractPrefixed "uc-"
    findReqs := extractPrefixed "req-"
    findPrinciples := extractPrefixed "principle-"
    findAdrIds := extractPrefixed "adr-"
    findAdrNums := fun _ => [] }

/-- C5 (counterexample to the claim as stated): with a non-empty business
    capability map, a requirement block that references one capability (which
    has no permitted-actor set, so the allowed union is empty) and whose actor
    set is not a subset of that union produces no actor-subset violation. -/
theorem actor_subset_empty_allowed_counterexample :
    reqBlocksOf specIdFns [] "**ID**: `req-1`\nActors: `actor-b`\nCaps: `cap-y`" =
      [⟨"req-1", ["cap-y"], ["actor-b"], [], []⟩] ∧
    allowedOf [("cap-x", ["actor-a"])] ["cap-y"] = [] ∧
    ¬(subsetB ["actor-b"] (allowedOf [("cap-x", ["actor-a"])] ["cap-y"]) = true) ∧
    (validate_overall_design specIdFns "**ID**: `req-1`\nActors: `actor-b`\nCaps: `cap-y`"
        ["actor-a"] [("cap-x", ["actor-a"])] [] [] [] []).requirement_issues.all
      (fun e => !(e.message == "Actors must match actors of referenced capabilities")) = true :=
  ⟨by decide, by decide, by decide, by decide⟩

theorem structureErrors_msg {missing c_subs : List String} {e : Issue}
    (h : e ∈ structureErrors missing c_subs) :
    e.message = "Missing required top-level sections" ∨
    e.message = "Section C must have exactly C.1..C.5 in order" := by
  unfold structureErrors at h
  rcases List.mem_append.mp h with h1 | h2
  · split at h1
    · simp only [List.mem_singleton] at h1
      subst h1
      left
      rfl
    · cases h1
  · split at h2
    · simp only [List.mem_singleton] at h2
      subst h2
      right
      rfl
    · cases h2

theorem orphanUcErrors_msg {b u : List String} {e : Issue} (h : e ∈ orphanUcErrors b u) :
    e.message = "Orphaned use cases (not referenced in DESIGN.md requirements)" := by
  unfold orphanUcErrors at h
  split at h
  · dsimp only at h
    split at h
    · simp only [List.mem_singleton] at h
      subst h
      rfl
    · cases h
  · cases h

theorem orphanAdrErrors_msg {b u : List String} {e : Issue} (h : e ∈ orphanAdrErrors b u) :
    e.message = "Orphaned ADRs (not referenced in DESIGN.md)" := by
  unfold orphanAdrErrors at h
  split at h
  · dsimp only at h
    split at h
    · simp only [List.mem_singleton] at h
      subst h
      rfl
    · cases h
  · cases h

theorem mem_orphanCapErrors (capsToActors : List (String × List String))
    (cap_cov : List String) (c : String) :
    (∃ e ∈ orphanCapErrors capsToActors cap_cov,
        e.message = "Orphaned capabilities (not referenced in DESIGN.md requirements)" ∧
        c ∈ e.ids) ↔
      (c ∈ capsToActors.map Prod.fst ∧ c ∉ cap_cov) := by
  unfold orphanCapErrors
  by_cases hg : capsToActors ≠ []
  · rw [if_pos hg]
    dsimp only
    by_cases hm :
        sortStr ((capsToActors.map Prod.fst).filter (fun x => !(cap_cov.contains x))) ≠ []
    · rw [if_pos hm]
      constructor
      · rintro ⟨e, he, _, hc⟩
        simp only [List.mem_singleton] at he
        subst he
        simp only at hc
        rw [mem_sortStr, List.mem_filter] at hc
        refine ⟨hc.1, ?_⟩
        have := hc.2
        simp at this
        exact this
      · rintro ⟨h1, h2⟩
        refine ⟨_, List.mem_singleton.mpr rfl, rfl, ?_⟩
        simp only
        rw [mem_sortStr, List.mem_filter]
        exact ⟨h1, by simpa using h2⟩
    · rw [if_neg hm]
      constructor
      · rintro ⟨e, he, _⟩
        cases he
      · rintro ⟨h1, h2⟩
        exfalso
        apply hm
        apply List.ne_nil_of_mem (a := c)
        rw [mem_sortStr, List.mem_filter]
        exact ⟨h1, by simpa using h2⟩
  · rw [if_neg hg]
    push_neg at hg
    subst hg
    simp

theorem mem_capCovered_gen (c : String) (bs : List ReqBlock) :
    ∀ acc : List String,
      c ∈ bs.foldl (fun a rb => setUnion a rb.caps) acc ↔
        c ∈ acc ∨ ∃ rb ∈ bs, c ∈ rb.caps := by
  induction bs with
  | nil => intro acc; simp
  | cons b bs ih =>
    intro acc
    show c ∈ bs.foldl (fun a rb => setUnion a rb.caps) (setUnion acc b.caps) ↔ _
    rw [ih, mem_setUnion]
    constructor
    · rintro ((h | h) | ⟨rb, hrb, hc⟩)
      · exact Or.inl h
      · exact Or.inr ⟨b, by simp, h⟩
      · exact Or.inr ⟨rb, by simp [hrb], hc⟩
    · rintro (h | ⟨rb, hrb, hc⟩)
      · exact Or.inl (Or.inl h)
      · rcases List.mem_cons.mp hrb with h1 | h2
        · subst h1
          exact Or.inl (Or.inr hc)
        · exact Or.inr ⟨rb, h2, hc⟩

theorem mem_capCovered (c : String) (bs : List ReqBlock) :
    c ∈ capCovered bs ↔ ∃ rb ∈ bs, c ∈ rb.caps := by
  unfold capCovered
  rw [mem_capCovered_gen]
  simp

/-- C6: a capability of the business model is listed in the
    orphaned-capabilities traceability error exactly when no requirement block
    of the design document references it; a capability referenced by at least
    one block is never reported orphaned.  Stated for a run whose sibling
    documents loaded cleanly (no cross-reference errors). -/
theorem orphaned_capability_iff_unreferenced (F : IdFns) (text : String)
    (businessActors : List String) (capsToActors : List (String × List String))
    (businessUsecases adrIds : List String) (adrNumToId : List (Nat × String)) (c : String) :
    (∃ e ∈ (validate_overall_design F text businessActors capsToActors businessUsecases
        adrIds adrNumToId []).errors,
      e.message = "Orphaned capabilities (not referenced in DESIGN.md requirements)" ∧
      c ∈ e.ids) ↔
    (c ∈ capsToActors.map Prod.fst ∧
      ∀ rb ∈ reqBlocksOf F adrNumToId text, c ∉ rb.caps) := by
  have herrs : (validate_overall_design F text businessActors capsToActors businessUsecases
      adrIds adrNumToId []).errors =
    structureErrors
        (["A", "B", "C"].filter (fun s => !((find_present_section_ids text).contains s)))
        ((splitLinesPy text).filterMap cSubOf) ++ [] ++
      orphanCapErrors capsToActors (capCovered (reqBlocksOf F adrNumToId text)) ++
      orphanUcErrors businessUsecases (ucCovered (reqBlocksOf F adrNumToId text)) ++
      orphanAdrErrors adrIds (setUnion (F.findAdrIds text).dedup
        (resolveAdrNums adrNumToId (F.findAdrNums text))) := rfl
  rw [herrs]
  have hmain := mem_orphanCapErrors capsToActors
    (capCovered (reqBlocksOf F adrNumToId text)) c
  constructor
  · rintro ⟨e, he, hmsg, hc⟩
    rcases List.mem_append.mp he with h1 | hAdr
    · rcases List.mem_append.mp h1 with h2 | hUc
      · rcases List.mem_append.mp h2 with h3 | hCap
        · rcases List.mem_append.mp h3 with hS | hNil
          · rcases structureErrors_msg hS with h | h <;>
              (rw [hmsg] at h; exact absurd h (by decide))
          · cases hNil
        · obtain ⟨h1c, h2c⟩ := hmain.mp ⟨e, hCap, hmsg, hc⟩
          refine ⟨h1c, ?_⟩
          intro rb hrb hcrb
          exact h2c ((mem_capCovered c _).mpr ⟨rb, hrb, hcrb⟩)
      · have := orphanUcErrors_msg hUc
        rw [hmsg] at this
        exact absurd this (by decide)
    · have := orphanAdrErrors_msg hAdr
      rw [hmsg] at this
      exact absurd this (by decide)
  · rintro ⟨h1, h2⟩
    obtain ⟨e, he, hp⟩ := hmain.mpr ⟨h1, fun hcc => by
      obtain ⟨rb, hrb, hcrb⟩ := (mem_capCovered c _).mp hcc
      exact h2 rb hrb hcrb⟩
    exact ⟨e, List.mem_append.mpr (Or.inl (List.mem_append.mpr (Or.inl
      (List.mem_append.mpr (Or.inr he))))), hp⟩

/-! ## Decision-record validation (`validation/artifacts/adr.py`, `validate_adr`,
    with `parse_adr_index` from `utils/helpers.py`) -/

/-- Modelled from the spec: the decision-record metadata patterns
    (`ADR_HEADING_RE`, `ADR_DATE_RE`, `ADR_STATUS_RE`, `ADR_ID_RE`) live in the
    missing `constants.py`; spec section 6 fixes the heading shape
    `## ADR-<4-digit-number>: <title>` and the `**Date**:`/`**Status**:`
    metadata lines but not the full patterns, so each is abstracted: `heading`
    returns the reference, number and title groups, `dateCap`/`statusCap` the
    metadata captures, `idFind` the linked-identifier findall. -/
structure AdrFns where
  heading : String → Option (String × Nat × String)
  dateCap : String → Option String
  statusCap : String → Option String
  idFind : String → List String

/-- One parsed decision entry (`utils/helpers.py` lines 121-128). -/
structure AdrEntry where
  ref : String
  num : Nat
  title : String
  date : Option String
  status : Option String
  id : Option String
deriving DecidableEq, Repr

def startsHH (t : String) : Bool := (dropPrefixCs "## ".data t.data).isSome

/-- The metadata lookahead of `parse_adr_index` (`helpers.py` lines 101-119):
    later matches overwrite earlier ones, and a line starting a new heading is
    still scanned before the lookahead stops. -/
def scanAdrWindow (A : AdrFns) :
    List String → Option String → Option String → Option String →
    Option String × Option String × Option String
  | [], d, s, a => (d, s, a)
  | l :: rest, d, s, a =>
    let d2 := match A.dateCap l with | some x => some x | none => d
    let s2 := match A.statusCap l with | some x => some x | none => s
    let a2 := match (A.idFind l).head? with | some x => some x | none => a
    if startsHH (pyStrip l) then (d2, s2, a2)
    else scanAdrWindow A rest d2 s2 a2

/-- Embedding of `parse_adr_index` (`helpers.py` lines 75-132) on the document
    lines; the source always returns an empty issue list alongside. -/
def parse_adr_index (A : AdrFns) : List String → List AdrEntry
  | [] => []
  | l :: rest =>
    match A.heading (pyStrip l) with
    | some g =>
      let w := scanAdrWindow A (rest.take 9) none none none
      ⟨g.1, g.2.1, g.2.2, w.1, w.2.1, w.2.2⟩ :: parse_adr_index A rest
    | none => parse_adr_index A rest

/-- The block grouping of `validate_adr` (`adr.py` lines 118-127): lines after
    each decision heading and before the next are the heading's block. -/
def adrBlocks (A : AdrFns) : Option String → List String → List String →
    List (String × List String)
  | cur, acc, [] =>
    (match cur with
     | some a => [(a, acc)]
     | none => [])
  | cur, acc, l :: rest =>
    match A.heading (pyStrip l) with
    | some g =>
      (match cur with
       | some a => [(a, acc)]
       | none => []) ++ adrBlocks A (some g.1) [] rest
    | none =>
      match cur with
      | some a => adrBlocks A (some a) (acc ++ [l]) rest
      | none => adrBlocks A none acc rest

def adrRequiredSections : List String :=
  ["### Context and Problem Statement", "### Decision Drivers", "### Considered Options",
   "### Decision Outcome", "### Related Design Elements"]

/-- The per-decision checks of `flush()` (`adr.py` lines 71-116). -/
def adrBlockIssues (A : AdrFns) (F : IdFns)
    (businessActors businessCaps designReq designPrinciple : List String)
    (adr : String) (blockLines : List String) : List Issue :=
  let bt := joinLines blockLines
  (if (A.dateCap bt).isSome then []
   else [{ adr := adr, message := "Missing **Date**: YYYY-MM-DD" }]) ++
  (if (A.statusCap bt).isSome then []
   else [{ adr := adr, message := "Missing or invalid **Status**" }]) ++
  (adrRequiredSections.filterMap (fun sec =>
    if strContains bt sec then none
    else some { adr := adr, message := "Missing section: " ++ sec })) ++
  (if strContains bt "### Related Design Elements" then
    (let related := String.mk (afterFirst "### Related Design Elements".data bt.data)
     let referenced := setUnion
       (setUnion (F.findActors related).dedup (F.findCaps related).dedup)
       (setUnion (F.findReqs related).dedup (F.findPrinciples related).dedup)
     (if referenced.isEmpty then
       [{ adr := adr, message := "Related Design Elements must contain at least one ID" }]
      else []) ++
     (if businessActors ≠ [] then
       (let bad := sortStr ((F.findActors related).filter
          (fun x => !(businessActors.contains x)))
        if bad ≠ [] then
          [{ adr := adr, message := "Unknown actor IDs in Related Design Elements"
             ids := bad }]
        else [])
      else []) ++
     (if businessCaps ≠ [] then
       (let bad := sortStr ((F.findCaps related).filter
          (fun x => !(businessCaps.contains x)))
        if bad ≠ [] then
          [{ adr := adr, message := "Unknown capability IDs in Related Design Elements"
             ids := bad }]
        else [])
      else []) ++
     (if designReq ≠ [] then
       (let bad := sortStr ((F.findReqs related).filter
          (fun x => !(designReq.contains x)))
        if bad ≠ [] then
          [{ adr := adr, message := "Unknown requirement IDs in Related Design Elements"
             ids := bad }]
        else [])
      else []) ++
     (if designPrinciple ≠ [] then
       (let bad := sortStr ((F.findPrinciples related).filter
          (fun x => !(designPrinciple.contains x)))
        if bad ≠ [] then
          [{ adr := adr, message := "Unknown principle IDs in Related Design Elements"
             ids := bad }]
        else [])
      else []))
   else [])

/-- Embedding of `validate_adr` (`adr.py` lines 29-138).  The four reference
    sets come from the sibling-document loads (empty when loading is skipped),
    `crossErrors` are the load failures reported by the collaborator, and the
    index parser contributes no issues of its own. -/
def validate_adr (A : AdrFns) (F : IdFns) (artifact_text : String)
    (businessActors businessCaps designReq designPrinciple : List String)
    (crossErrors : List Issue) : ValidationResult :=
  let placeholders := find_placeholders artifact_text
  let lines := splitLinesPy artifact_text
  let adr_entries := parse_adr_index A lines
  let errors := ([] : List Issue) ++ crossErrors
  let per_adr := (adrBlocks A none [] lines).flatMap (fun p =>
    adrBlockIssues A F businessActors businessCaps designReq designPrinciple p.1 p.2)
  let passed := errors.isEmpty && per_adr.isEmpty && placeholders.isEmpty
  { required_section_count := 5
    missing_sections := []
    placeholder_hits := placeholders
    status := if passed then "PASS" else "FAIL"
    errors := errors
    adr_issues := per_adr
    adr_count := adr_entries.length }

/-! ## Completion-status reconciler (`fdl.py`, `validate_fdl_completion`) -/

/-- The alternatives of the inline status pattern
    `(✅\s*COMPLETED|🔄\s*IN_PROGRESS|⏳\s*NOT_STARTED|✨\s*IMPLEMENTED)`
    of `fdl.py` line 286, in source order. -/
def statusAlts : List (Char × String) :=
  [('✅', "COMPLETED"), ('🔄', "IN_PROGRESS"), ('⏳', "NOT_STARTED"), ('✨', "IMPLEMENTED")]

/-- Matching the alternation at a position: each alternative is its emoji,
    optional whitespace, then its label; the capture spans the alternative. -/
def tryAlts : List (Char × String) → List Char → Option String
  | [], _ => none
  | (e, lbl) :: alts, cs =>
    match cs with
    | c :: rest =>
      if c = e then
        (let ws2 := rest.takeWhile isPyWs
         match dropPrefixCs lbl.data (rest.drop ws2.length) with
         | some _ => some (String.mk (e :: (ws2 ++ lbl.data)))
         | none => tryAlts alts (c :: rest))
      else tryAlts alts (c :: rest)
    | [] => tryAlts alts []

/-- Matching `\*\*Status\*\*:\s*(...)` at a position. -/
def tryStatusAt (cs : List Char) : Option String :=
  match dropPrefixCs "**Status**:".data cs with
  | none => none
  | some r => tryAlts statusAlts (r.drop (r.takeWhile isPyWs).length)

/-- `re.search` of the status pattern: the leftmost matching position wins. -/
def searchStatus : List Char → Option String
  | [] => tryStatusAt []
  | c :: rest =>
    match tryStatusAt (c :: rest) with
    | some g => some g
    | none => searchStatus rest

/-- The inner loop of the COMPLETED branch (`fdl.py` lines 327-330): indexing
    `completed[i]` for each enumerated instruction; an out-of-range index is
    Python's IndexError, modelled as `none`. -/
def uncompletedGo (scope : String) (completed : List String) :
    Nat → List String → Option (List (String × String))
  | _, [] => some []
  | i, inst :: rest =>
    match completed.get? i with
    | none => none
    | some c =>
      match uncompletedGo scope completed (i + 1) rest with
      | none => none
      | some tail => some (if c = "" then (scope, inst) :: tail else tail)

/-- The full scan over `design_fdl.items()` collecting instructions whose
    completed entry is falsy. -/
def collectUncompleted : FdlMap → Option (List (String × String))
  | [] => some []
  | (scope, data) :: rest =>
    match uncompletedGo scope data.completed 0 data.instructions with
    | none => none
    | some u =>
      match collectUncompleted rest with
      | none => none
      | some tail => some (u ++ tail)

/-- Embedding of `validate_fdl_completion` (`fdl.py` lines 276-343).  `none`
    models a crash: the IMPLEMENTED branch dereferences the unbound name
    `feature_root` (line 295), and the completed branch indexes
    `data["completed"][i]` which can be out of range for an arbitrary map. -/
def validate_fdl_completion (changes_text : String) (design_fdl : FdlMap) :
    Option (List Issue) :=
  match searchStatus changes_text.data with
  | none => some []
  | some g =>
    let status := pyStrip g
    if status = "" then some []
    else if status = "IMPLEMENTED" then none
    else
      match collectUncompleted design_fdl with
      | none => none
      | some uncompleted =>
        some (if uncompleted ≠ [] then
          [{ type := "premature_completion"
             message := "Feature marked COMPLETED but FDL instructions not all implemented ([x])"
             count := uncompleted.length
             examples := uncompleted.take 10 }]
        else [])

theorem tryAlts_shape (alts : List (Char × String)) :
    ∀ (cs : List Char) (g : String), tryAlts alts cs = some g →
      ∃ e lbl ws, (e, lbl) ∈ alts ∧ g = String.mk (e :: (ws ++ lbl.data)) := by
  induction alts with
  | nil => intro cs g h; cases h
  | cons p alts ih =>
    intro cs g h
    obtain ⟨e, lbl⟩ := p
    unfold tryAlts at h
    cases cs with
    | nil =>
      obtain ⟨e2, lbl2, ws, hmem, hg⟩ := ih _ _ h
      exact ⟨e2, lbl2, ws, by simp [hmem], hg⟩
    | cons c rest =>
      dsimp only at h
      by_cases hc : c = e
      · rw [if_pos hc] at h
        cases hdrop : dropPrefixCs lbl.data (rest.drop (rest.takeWhile isPyWs).length) with
        | some r2 =>
          rw [hdrop] at h
          injection h with h2
          exact ⟨e, lbl, rest.takeWhile isPyWs, by simp, h2.symm⟩
        | none =>
          rw [hdrop] at h
          obtain ⟨e2, lbl2, ws, hmem, hg⟩ := ih _ _ h
          exact ⟨e2, lbl2, ws, by simp [hmem], hg⟩
      · rw [if_neg hc] at h
        obtain ⟨e2, lbl2, ws, hmem, hg⟩ := ih _ _ h
        exact ⟨e2, lbl2, ws, by simp [hmem], hg⟩

theorem tryStatusAt_shape (cs : List Char) (g : String) (h : tryStatusAt cs = some g) :
    ∃ e lbl ws, (e, lbl) ∈ statusAlts ∧ g = String.mk (e :: (ws ++ lbl.data)) := by
  unfold tryStatusAt at h
  cases hd : dropPrefixCs "**Status**:".data cs with
  | none => rw [hd] at h; cases h
  | some r =>
    rw [hd] at h
    exact tryAlts_shape statusAlts _ g h

theorem searchStatus_shape (cs : List Char) (g : String) (h : searchStatus cs = some g) :
    ∃ e lbl ws, (e, lbl) ∈ statusAlts ∧ g = String.mk (e :: (ws ++ lbl.data)) := by
  induction cs with
  | nil => exact tryStatusAt_shape [] g h
  | cons c rest ih =>
    unfold searchStatus at h
    cases ht : tryStatusAt (c :: rest) with
    | some g2 =>
      rw [ht] at h
      injection h with h2
      subst h2
      exact tryStatusAt_shape _ _ ht
    | none =>
      rw [ht] at h
      exact ih h

theorem dropWhile_append_singleton (p : Char → Bool) (xs : List Char) (c : Char)
    (hc : p c = false) : (xs ++ [c]).dropWhile p = xs.dropWhile p ++ [c] := by
  induction xs with
  | nil => simp [List.dropWhile, hc]
  | cons a as ih =>
    by_cases ha : p a = true
    · simp [List.dropWhile, ha, ih]
    · simp only [Bool.not_eq_true] at ha
      simp [List.dropWhile, ha]

theorem pyStrip_head {c : Char} (l : List Char) (hc : isPyWs c = false) :
    (pyStrip (String.mk (c :: l))).data = c :: ((l.reverse.dropWhile isPyWs).reverse) := by
  unfold pyStrip
  show (((List.dropWhile isPyWs (c :: l)).reverse.dropWhile isPyWs).reverse) = _
  rw [List.dropWhile_cons]
  simp only [hc, Bool.false_eq_true, if_false]
  rw [List.reverse_cons, dropWhile_append_singleton isPyWs l.reverse c hc]
  simp

theorem searchStatus_strip (cs : List Char) (g : String) (h : searchStatus cs = some g) :
    pyStrip g ≠ "" ∧ pyStrip g ≠ "IMPLEMENTED" := by
  obtain ⟨e, lbl, ws, hmem, hg⟩ := searchStatus_shape cs g h
  have he : isPyWs e = false ∧ e ≠ 'I' := by
    simp only [statusAlts, List.mem_cons, List.not_mem_nil, or_false, Prod.mk.injEq] at hmem
    rcases hmem with ⟨h1, _⟩ | ⟨h1, _⟩ | ⟨h1, _⟩ | ⟨h1, _⟩ <;> subst h1 <;> exact ⟨by decide, by decide⟩
  subst hg
  constructor
  · intro hcon
    have hd := congrArg String.data hcon
    rw [pyStrip_head _ he.1] at hd
    simp at hd
  · intro hcon
    have hd := congrArg String.data hcon
    rw [pyStrip_head _ he.1,
      show "IMPLEMENTED".data = 'I' :: "MPLEMENTED".data from rfl] at hd
    injection hd with h1 _
    exact he.2 h1

theorem uncompletedGo_clean (scope : String) (l : List String) (h : ∀ x ∈ l, x ≠ "") :
    ∀ (suffix : List String) (i : Nat), l.drop i = suffix →
      uncompletedGo scope l i suffix = some [] := by
  intro suffix
  induction suffix with
  | nil => intro i _; rfl
  | cons inst rest ih =>
    intro i hdrop
    have hget : l.get? i = some inst := by
      have h0 := List.get?_drop l i 0
      rw [hdrop] at h0
      simpa using h0.symm
    have hmem : inst ∈ l := List.drop_subset i l (by rw [hdrop]; simp)
    have hrest : l.drop (i + 1) = rest := by
      rw [← List.tail_drop, hdrop]
      rfl
    unfold uncompletedGo
    rw [hget, ih (i + 1) hrest]
    simp [h inst hmem]

theorem collectUncompleted_good (m : FdlMap) (hg : GoodMap m) :
    collectUncompleted m = some [] := by
  induction m with
  | nil => rfl
  | cons p rest ih =>
    obtain ⟨scope, data⟩ := p
    obtain ⟨h1, h2⟩ := hg (scope, data) (by simp)
    dsimp only at h1 h2
    have hrest : GoodMap rest := fun e he => hg e (by simp [he])
    unfold collectUncompleted
    rw [uncompletedGo_clean scope data.completed h2 data.instructions 0 (by simp [h1]),
      ih hrest]
    rfl

/-- C2 (code bug): for every change log and every feature document, the
    completion reconciler applied to the extractor's output reports nothing at
    all: the captured status keeps its emoji so the IMPLEMENTED branch (which
    would dereference the unbound `feature_root`) is unreachable, and the
    COMPLETED branch tests `not completed[i]` over entries that are always
    non-empty strings.  In particular a ✅ COMPLETED feature whose document
    leaves `inst-a` unchecked (so the extractor records no instruction for its
    scope) yields no error, where the claim requires one. -/
theorem completion_reconciler_never_reports :
    (∀ (changes_text design_text : String),
      validate_fdl_completion changes_text (extract_fdl_instructions design_text) =
        some []) ∧
    validate_fdl_completion "**Status**: ✅ COMPLETED"
      (extract_fdl_instructions "- [ ] **ID**: `fdd-p-flow-s`\n1. [ ] step `inst-a`") =
      some [] ∧
    extract_fdl_instructions "- [ ] **ID**: `fdd-p-flow-s`\n1. [ ] step `inst-a`" =
      [("fdd-p-flow-s", ⟨[], []⟩)] := by
  have hgen : ∀ (changes_text design_text : String),
      validate_fdl_completion changes_text (extract_fdl_instructions design_text) =
        some [] := by
    intro ct dt
    unfold validate_fdl_completion
    cases hs : searchStatus ct.data with
    | none => rfl
    | some g =>
      obtain ⟨hne, hni⟩ := searchStatus_strip ct.data g hs
      dsimp only
      rw [if_neg hne, if_neg hni,
        collectUncompleted_good (extract_fdl_instructions dt)
          (goodMap_extractGo (splitLinesPy dt) [] none (by intro e he; cases he))]
      simp
  exact ⟨hgen, hgen _ _, by decide⟩

theorem pass_flag_iff {α β γ : Type} (a : List α) (b : List β) (c : List γ) :
    ((if (a.isEmpty && b.isEmpty && c.isEmpty) = true then "PASS" else "FAIL") = "PASS") ↔
      (a = [] ∧ b = [] ∧ c = []) := by
  by_cases ha : a = [] <;> by_cases hb : b = [] <;> by_cases hc : c = [] <;>
    simp [ha, hb, hc, List.isEmpty_iff, show ("FAIL" : String) ≠ "PASS" by decide]

/-- C1: for each artifact validation call, the returned status is PASS exactly
    when all three of the returned error list, the placeholder-hit list and
    the artifact-specific issue list (the missing-section list for the generic
    section validator, the per-ADR issue list for the decision log, the
    requirement issue list for the design document) are empty; none of the
    three lists is ever ignored by the verdict. -/
theorem pass_status_iff_all_issue_lists_empty :
    (∀ (artifact_text : String) (required_sections : List (String × String)) (path : String),
      (validate_generic_sections artifact_text required_sections path).status = "PASS" ↔
        ((validate_generic_sections artifact_text required_sections path).errors = [] ∧
         (validate_generic_sections artifact_text required_sections path).placeholder_hits = [] ∧
         (validate_generic_sections artifact_text required_sections path).missing_sections = [])) ∧
    (∀ (A : AdrFns) (F : IdFns) (text : String) (bA bC dR dP : List String)
        (cross : List Issue),
      (validate_adr A F text bA bC dR dP cross).status = "PASS" ↔
        ((validate_adr A F text bA bC dR dP cross).errors = [] ∧
         (validate_adr A F text bA bC dR dP cross).adr_issues = [] ∧
         (validate_adr A F text bA bC dR dP cross).placeholder_hits = [])) ∧
    (∀ (F : IdFns) (text : String) (bA : List String) (cTA : List (String × List String))
        (bU aI : List String) (aN : List (Nat × String)) (cross : List Issue),
      (validate_overall_design F text bA cTA bU aI aN cross).status = "PASS" ↔
        ((validate_overall_design F text bA cTA bU aI aN cross).errors = [] ∧
         (validate_overall_design F text bA cTA bU aI aN cross).requirement_issues = [] ∧
         (validate_overall_design F text bA cTA bU aI aN cross).placeholder_hits = [])) := by
  refine ⟨?_, ?_, ?_⟩
  · intro artifact_text required_sections path
    by_cases hreq : required_sections.isEmpty = true
    · have hstat : (validate_generic_sections artifact_text required_sections path).status =
          "FAIL" := by
        unfold validate_generic_sections
        rw [if_pos hreq]
      have herr : (validate_generic_sections artifact_text required_sections path).errors ≠
          [] := by
        unfold validate_generic_sections
        rw [if_pos hreq]
        simp
      rw [hstat]
      constructor
      · intro h
        exact absurd h (by decide)
      · rintro ⟨h, -, -⟩
        exact absurd h herr
    · unfold validate_generic_sections
      rw [if_neg hreq]
      dsimp only
      rw [pass_flag_iff]
      tauto
  · intro A F text bA bC dR dP cross
    unfold validate_adr
    dsimp only
    rw [pass_flag_iff]
  · intro F text bA cTA bU aI aN cross
    unfold validate_overall_design
    dsimp only
    rw [pass_flag_iff]
